import Mathlib

/-!
Verification of the movement / AI / scoring core of the Pac-Man clone in
`src/main.py` against its natural-language specification.

The Python code is shallowly embedded: Python `int` becomes `Int`, tuples
become products, classes become structures, methods become functions that
return the updated structure.  The tile grid keeps the raw characters of the
source layout (`'#'` wall, `'.'` dot, `'o'` power pellet, `' '` empty,
`'='` ghost gate, `'G'` decorative marker).  Calls to `random.choice` on the
four cardinal directions are modelled by an extra `Nat` argument `r`, the
chosen element being `[UP, DOWN, LEFT, RIGHT].getD (r % 4) STOP`; streams of
such choices are modelled by a function `rng : Nat → Nat` giving the draw
used for the ghost at each index.  Continuous pixel positions and the
floating-point proximity test `distance(player.pos, g.pos) < CELL_SIZE*0.6`
in `Game.update` are not representable exactly; the per-ghost outcome of
that test is abstracted into a boolean family `collide : Nat → Bool`
(ghost index ↦ whether the test fired this tick), and the movement phase of
a tick (which only moves actors and runs ghost timers) is treated as already
applied to the input state.  Everything from pellet consumption onward
(`Game.update` lines 468-494) is embedded exactly.
-/

-- Configuration constants from the top of src/main.py.
def COLS : Int := 28

def ROWS : Int := 31

-- Direction unit vectors (UP, DOWN, LEFT, RIGHT, STOP in src/main.py).
def UP : Int × Int := (0, -1)

def DOWN : Int × Int := (0, 1)

def LEFT : Int × Int := (-1, 0)

def RIGHT : Int × Int := (1, 0)

def STOP : Int × Int := (0, 0)

/-- The `OPPOSITE` dict of src/main.py, as a partial map: `OPPOSITE.get(d)`. -/
def oppositeGet (d : Int × Int) : Option (Int × Int) :=
  if d = UP then some DOWN
  else if d = DOWN then some UP
  else if d = LEFT then some RIGHT
  else if d = RIGHT then some LEFT
  else if d = STOP then some STOP
  else none

/-- The 28x31 maze layout `MAZE_LAYOUT` of src/main.py (31 rows; the last
row is the dummy padding row from the source). -/
def MAZE_LAYOUT : List String := [
  "############################",
  "#............##............#",
  "#.####.#####.##.#####.####.#",
  "#o####.#####.##.#####.####o#",
  "#.####.#####.##.#####.####.#",
  "#..........................#",
  "#.####.##.########.##.####.#",
  "#.####.##.########.##.####.#",
  "#......##....##....##......#",
  "######.##### ## #####.######",
  "     #.##### ## #####.#     ",
  "     #.##          ##.#     ",
  "     #.## ###==### ##.#     ",
  "######.## #      # ##.######",
  "      .   # G  G #   .      ",
  "######.## #      # ##.######",
  "     #.## ######## ##.#     ",
  "     #.##          ##.#     ",
  "     #.## ######## ##.#     ",
  "######.## ######## ##.######",
  "#............##............#",
  "#.####.#####.##.#####.####.#",
  "#o..##................##..o#",
  "###.##.##.########.##.##.###",
  "#......##....##....##......#",
  "#.##########.##.##########.#",
  "#..........................#",
  "#.####.#####.##.#####.####.#",
  "#o........................o#",
  "############################",
  "                            "]

/-- Result of `Maze.eat`: the string `"dot"` or `"power"` returned by the
Python method (its `None` case is `Option.none`). -/
inductive Ate where
  | dot : Ate
  | power : Ate
deriving DecidableEq, Repr

/-- The `Maze` class: the mutable character grid together with the running
collectible counter `dots_total`. -/
structure Maze where
  grid : List (List Char)
  dots_total : Int
deriving DecidableEq, Repr

/-- Collectible weight of a single tile character: 1 for `'.'` plus 1 for
`'o'` (so 1 on a collectible, 0 otherwise). -/
def cc (c : Char) : Int :=
  (if c = '.' then 1 else 0) + (if c = 'o' then 1 else 0)

/-- Number of collectible tiles in one grid row (`row.count('.')` plus
`row.count('o')`, summed elementwise). -/
def countCollect : List Char → Int
  | [] => 0
  | c :: r => cc c + countCollect r

/-- Number of collectible tiles in the whole grid. -/
def gridCollect (g : List (List Char)) : Int :=
  (g.map countCollect).sum

/-- `Maze.__init__`: the grid is the first `ROWS` layout rows, and
`dots_total` is `sum(row.count('.') for row in grid) +
sum(row.count('o') for row in grid)`. -/
def Maze.init : Maze :=
  let g := (MAZE_LAYOUT.take ROWS.toNat).map (fun s => s.toList)
  { grid := g,
    dots_total := (((g.map (fun row => row.count '.')).sum : Nat) : Int)
      + (((g.map (fun row => row.count 'o')).sum : Nat) : Int) }

/-- `Maze.is_wall`: wrap the column (any negative column to `COLS - 1`, any
column `≥ COLS` to `0`), report out-of-vertical-bounds cells as walls, then
look the tile up in the grid. -/
def Maze.is_wall (m : Maze) (c : Int × Int) : Bool :=
  let x := if c.1 < 0 then COLS - 1 else if COLS ≤ c.1 then 0 else c.1
  if c.2 < 0 ∨ ROWS ≤ c.2 then true
  else decide ((m.grid.getD c.2.toNat []).getD x.toNat ' ' = '#')

/-- `Maze.is_gate`: true only for in-bounds gate tiles; no wrapping. -/
def Maze.is_gate (m : Maze) (c : Int × Int) : Bool :=
  decide (0 ≤ c.2 ∧ c.2 < ROWS ∧ 0 ≤ c.1 ∧ c.1 < COLS) &&
    decide ((m.grid.getD c.2.toNat []).getD c.1.toNat ' ' = '=')

/-- `Maze.eat`: on an in-bounds `'.'` or `'o'` tile, blank the tile,
decrement `dots_total` and report what was eaten; otherwise the maze is
untouched and `None` is returned. -/
def Maze.eat (m : Maze) (c : Int × Int) : Maze × Option Ate :=
  if 0 ≤ c.1 ∧ c.1 < COLS ∧ 0 ≤ c.2 ∧ c.2 < ROWS then
    let row := m.grid.getD c.2.toNat []
    let t := row.getD c.1.toNat ' '
    if t = '.' then
      ({ grid := m.grid.set c.2.toNat (row.set c.1.toNat ' '),
         dots_total := m.dots_total - 1 }, some Ate.dot)
    else if t = 'o' then
      ({ grid := m.grid.set c.2.toNat (row.set c.1.toNat ' '),
         dots_total := m.dots_total - 1 }, some Ate.power)
    else (m, none)
  else (m, none)

/-- `Maze.remaining_pellets`. -/
def Maze.remaining_pellets (m : Maze) : Int :=
  m.dots_total

/-- A sequence of `eat` calls on the same maze instance (the maze results
of `m.eat c₁; m.eat c₂; …`). -/
def Maze.eat_all (m : Maze) : List (Int × Int) → Maze
  | [] => m
  | c :: cs => ((m.eat c).1).eat_all cs

/-- The counter/grid consistency invariant of the spec: `dots_total` equals
the number of collectible tiles currently present. -/
def mazeInv (m : Maze) : Prop :=
  m.dots_total = gridCollect m.grid

/-- The `Player` class (continuous pixel position, draw radius and the
`alive` flag — none of which feed back into the discrete logic — are
omitted; `speed` is the interpolation speed in pixels per tick). -/
structure Player where
  start_cell : Int × Int
  cell : Int × Int
  direction : Int × Int
  next_direction : Int × Int
  speed : ℚ
deriving DecidableEq, Repr

/-- `Player.reset`: back to the start cell, stopped, with cleared intent. -/
def Player.reset (p : Player) : Player :=
  { p with cell := p.start_cell, direction := STOP, next_direction := STOP,
           speed := 2.0 }

/-- `Player.__init__(start_cell)`. -/
def Player.init (start : Int × Int) : Player :=
  Player.reset { start_cell := start, cell := start, direction := STOP,
                 next_direction := STOP, speed := 0 }

/-- The `ghost_type` tag of a `Ghost` (`'chaser'` or `'random'`). -/
inductive GhostType where
  | chaser : GhostType
  | random : GhostType
deriving DecidableEq, Repr

/-- The ghost lifecycle state (`GHOST_NORMAL`, `GHOST_VULNERABLE`,
`GHOST_EYES`). -/
inductive GhostState where
  | normal : GhostState
  | vulnerable : GhostState
  | eyes : GhostState
deriving DecidableEq, Repr

/-- The `Ghost` class (name, color and the continuous pixel position are
omitted as above). -/
structure Ghost where
  start_cell : Int × Int
  cell : Int × Int
  direction : Int × Int
  speed : ℚ
  state : GhostState
  vulnerable_timer : Int
  home_cell : Int × Int
  ghost_type : GhostType
deriving DecidableEq, Repr

/-- The value `random.choice([UP, DOWN, LEFT, RIGHT])`, for the draw `r`. -/
def randDir (r : Nat) : Int × Int :=
  [UP, DOWN, LEFT, RIGHT].getD (r % 4) STOP

/-- `Ghost.reset`: back to the start cell in `normal` state at base speed,
with a freshly randomised direction (draw `r`). -/
def Ghost.reset (g : Ghost) (r : Nat) : Ghost :=
  { g with cell := g.start_cell, direction := randDir r, speed := 1.8,
           state := GhostState.normal, vulnerable_timer := 0,
           home_cell := g.start_cell }

/-- `Ghost.__init__(name, color, start_cell, ghost_type)` (the name and
color arguments are rendering-only and omitted). -/
def Ghost.init (start : Int × Int) (t : GhostType) (r : Nat) : Ghost :=
  Ghost.reset
    { start_cell := start, cell := start, direction := STOP, speed := 0,
      state := GhostState.normal, vulnerable_timer := 0, home_cell := start,
      ghost_type := t } r

/-- `Ghost.set_vulnerable(duration_ms)`: no effect on an `eyes` ghost,
otherwise enter `vulnerable` with the given countdown. -/
def Ghost.set_vulnerable (g : Ghost) (duration_ms : Int) : Ghost :=
  if g.state = GhostState.eyes then g
  else { g with state := GhostState.vulnerable,
                vulnerable_timer := duration_ms }

/-- `Ghost.eaten`. -/
def Ghost.eaten (g : Ghost) : Ghost :=
  { g with state := GhostState.eyes, speed := 2.4 }

/-- `Ghost.revive_if_at_home`: an `eyes` ghost standing on its home cell
returns to `normal` at base speed with a re-randomised direction. -/
def Ghost.revive_if_at_home (g : Ghost) (r : Nat) : Ghost :=
  if g.state = GhostState.eyes ∧ g.cell = g.home_cell then
    { g with state := GhostState.normal, speed := 1.8, direction := randDir r }
  else g

/-- `Ghost.can_move`: wrap the column of the neighbour cell, reject
out-of-vertical-bounds cells and walls, and reject the gate unless the
ghost is in `eyes` state. -/
def Ghost.can_move (g : Ghost) (m : Maze) (cell d : Int × Int) : Bool :=
  let nx0 := cell.1 + d.1
  let nx := if nx0 < 0 then COLS - 1 else if COLS ≤ nx0 then 0 else nx0
  let ny := cell.2 + d.2
  if ny < 0 ∨ ROWS ≤ ny then false
  else if m.is_wall (nx, ny) then false
  else if m.is_gate (nx, ny) ∧ g.state ≠ GhostState.eyes then false
  else true

/-- `Ghost._heuristic`: Manhattan distance. -/
def Ghost.heuristic (a b : Int × Int) : Int :=
  |a.1 - b.1| + |a.2 - b.2|

/-- `Ghost._next_cell`: advance one step, wrapping the column. -/
def Ghost.next_cell (cell d : Int × Int) : Int × Int :=
  let nx0 := cell.1 + d.1
  let nx := if nx0 < 0 then COLS - 1 else if COLS ≤ nx0 then 0 else nx0
  (nx, cell.2 + d.2)

/-- The `valid_dirs` list built at the top of `Ghost.choose_direction`:
the cardinal directions, skipping the reverse of the current direction,
restricted to legal moves. -/
def Ghost.valid_dirs (g : Ghost) (m : Maze) : List (Int × Int) :=
  [UP, DOWN, LEFT, RIGHT].filter
    (fun d => decide (some d ≠ oppositeGet g.direction) && g.can_move m g.cell d)

/-- Python's `min(xs, key=f)` on the list `x :: ys`: the first element
attaining the minimal key. -/
def pyArgmin (f : Int × Int → Int) (x : Int × Int) : List (Int × Int) → Int × Int
  | [] => x
  | y :: ys => pyArgmin f (if f y < f x then y else x) ys

/-- Python's `max(xs, key=f)` on the list `x :: ys`: the first element
attaining the maximal key. -/
def pyArgmax (f : Int × Int → Int) (x : Int × Int) : List (Int × Int) → Int × Int
  | [] => x
  | y :: ys => pyArgmax f (if f x < f y then y else x) ys

/-- `Ghost.choose_direction(maze, target_cell)`; `r` models the
`random.choice(valid_dirs)` draw of the `'random'` ghost type. -/
def Ghost.choose_direction (g : Ghost) (m : Maze) (target : Int × Int)
    (r : Nat) : Int × Int :=
  match g.valid_dirs m with
  | [] =>
    let rev := (oppositeGet g.direction).getD STOP
    if g.can_move m g.cell rev then rev
    else (([UP, DOWN, LEFT, RIGHT].filter
        (fun d => g.can_move m g.cell d)).head?).getD STOP
  | d0 :: rest =>
    if g.state = GhostState.vulnerable ∧ g.ghost_type = GhostType.chaser then
      pyArgmax (fun d => Ghost.heuristic (Ghost.next_cell g.cell d) target)
        d0 rest
    else if g.ghost_type = GhostType.random then
      (d0 :: rest).getD (r % (d0 :: rest).length) STOP
    else
      pyArgmin (fun d => Ghost.heuristic (Ghost.next_cell g.cell d) target)
        d0 rest

/-- The vulnerability-countdown block at the top of `Ghost.update`
(src/main.py lines 370-375): a vulnerable ghost's timer is decremented by
the elapsed milliseconds, and on reaching zero or below the ghost returns
to `normal` at base speed. -/
def Ghost.update_timer (g : Ghost) (dt_ms : Int) : Ghost :=
  if g.state = GhostState.vulnerable then
    let t := g.vulnerable_timer - dt_ms
    if t ≤ 0 then
      { g with vulnerable_timer := t, state := GhostState.normal, speed := 1.8 }
    else { g with vulnerable_timer := t }
  else g

/-- The `Game` class: the session state owned by the orchestrator
(rendering-only fields omitted). -/
structure Game where
  maze : Maze
  player : Player
  ghosts : List Ghost
  score : Int
  lives : Int
  level : Int
  power_duration_ms : Int
  ghost_score_base : Int
  ghost_combo : Nat
  game_over : Bool
deriving DecidableEq, Repr

/-- The ghost half of `Game.reset_positions`: each ghost at index `i` is
reset with the draw `rng i` (`i` starts at the given offset). -/
def resetGhosts (rng : Nat → Nat) : Nat → List Ghost → List Ghost
  | _, [] => []
  | i, g :: gs => g.reset (rng i) :: resetGhosts rng (i + 1) gs

/-- `Game.reset_positions`: reset the player and every ghost. -/
def Game.reset_positions (gm : Game) (rng : Nat → Nat) : Game :=
  { gm with player := gm.player.reset,
            ghosts := resetGhosts rng 0 gm.ghosts }

/-- `Game.next_level`: rebuild the maze with a fresh pellet grid, bump the
level counter and reset all positions. -/
def Game.next_level (gm : Game) (rng : Nat → Nat) : Game :=
  Game.reset_positions { gm with maze := Maze.init, level := gm.level + 1 } rng

/-- `Game.__init__` (window, font and clock setup omitted): full maze,
player at (13, 23), the chaser at (13, 14) and the random wanderer at
(14, 14), 3 lives, level 1, 6000 ms power duration, ghost base score 200,
combo 0. -/
def Game.init (rng : Nat → Nat) : Game :=
  { maze := Maze.init,
    player := Player.init (13, 23),
    ghosts := [Ghost.init (13, 14) GhostType.chaser (rng 0),
               Ghost.init (14, 14) GhostType.random (rng 1)],
    score := 0, lives := 3, level := 1, power_duration_ms := 6000,
    ghost_score_base := 200, ghost_combo := 0, game_over := false }

/-- The pellet-consumption step of `Game.update` (src/main.py lines
468-476): eat the tile under the player; a dot scores 10; a power pellet
scores 50, zeroes the combo and broadcasts vulnerability to every ghost. -/
def Game.eat_phase (gm : Game) : Game :=
  let r := gm.maze.eat gm.player.cell
  match r.2 with
  | some Ate.dot => { gm with maze := r.1, score := gm.score + 10 }
  | some Ate.power =>
      { gm with maze := r.1, score := gm.score + 50, ghost_combo := 0,
                ghosts := gm.ghosts.map
                  (fun g => g.set_vulnerable gm.power_duration_ms) }
  | none => { gm with maze := r.1 }

/-- The ghost-collision loop of `Game.update` (src/main.py lines 479-490),
run over the listed ghost indices in order.  `collide i` abstracts the
continuous proximity test for the ghost at index `i`.  A vulnerable ghost
is eaten (combo increment, exponential award); a normal ghost costs a
life, resets all positions and `break`s out of the loop; an `eyes` ghost
is ignored. -/
def Game.collision_pass (rng : Nat → Nat) (collide : Nat → Bool) :
    List Nat → Game → Game
  | [], gm => gm
  | i :: rest, gm =>
    match gm.ghosts.get? i with
    | none => Game.collision_pass rng collide rest gm
    | some g =>
      if collide i then
        if g.state = GhostState.vulnerable then
          let combo := gm.ghost_combo + 1
          Game.collision_pass rng collide rest
            { gm with ghosts := gm.ghosts.set i g.eaten,
                      ghost_combo := combo,
                      score := gm.score + gm.ghost_score_base * 2 ^ (combo - 1) }
        else if g.state = GhostState.normal then
          Game.reset_positions
            { gm with lives := gm.lives - 1,
                      game_over := if gm.lives - 1 ≤ 0 then true
                                   else gm.game_over } rng
        else Game.collision_pass rng collide rest gm
      else Game.collision_pass rng collide rest gm

/-- The resolution phase of `Game.update(dt_ms)` (src/main.py lines
461-494): nothing happens once `game_over` is set; otherwise — with the
movement phase (`player.update`, each `ghost.update`) taken as already
applied to the input state, and `collide` the per-ghost outcome of the
proximity test — eat the tile under the player, run the collision loop
over all ghost indices, and finally trigger the level transition if no
pellet remains. -/
def Game.update_resolve (gm : Game) (rng : Nat → Nat)
    (collide : Nat → Bool) : Game :=
  if gm.game_over then gm
  else
    let gm1 := gm.eat_phase
    let gm2 := Game.collision_pass rng collide
      (List.range gm1.ghosts.length) gm1
    if gm2.maze.remaining_pellets ≤ 0 then gm2.next_level rng else gm2

/-! ### Concrete states used to instantiate the theorems -/

/-- A degenerate rng stream: every draw is 0 (so `random.choice` on the
four cardinals returns `UP`). -/
def rng0 : Nat → Nat := fun _ => 0

/-- Proximity test firing for every ghost this tick. -/
def collideAll : Nat → Bool := fun _ => true

/-- Proximity test firing for no ghost this tick. -/
def collideNone : Nat → Bool := fun _ => false

/-- A maze whose stored grid is empty, so every in-bounds cell reads as the
default `' '` (all-free topology); 5 pellets outstanding on the counter. -/
def mazeFree : Maze := { grid := [], dots_total := 5 }

/-- A maze with a single dot at cell (0, 0). -/
def mazeOneDot : Maze := { grid := [['.']], dots_total := 1 }

/-- A maze with a single power pellet at cell (0, 0). -/
def mazeOnePower : Maze := { grid := [['o']], dots_total := 1 }

/-- A full-size maze that is wall everywhere except cell (5, 6). -/
def mazeRevOnly : Maze :=
  { grid := (List.range 31).map
      (fun y => (List.range 28).map
        (fun x => if x = 5 ∧ y = 6 then ' ' else '#')),
    dots_total := 0 }

/-- A full-size maze that is wall everywhere. -/
def mazeWalls : Maze :=
  { grid := List.replicate 31 (List.replicate 28 '#'), dots_total := 0 }

/-- A player away from every ghost used below. -/
def playerFix : Player :=
  { start_cell := (13, 23), cell := (20, 20), direction := STOP,
    next_direction := STOP, speed := 2 }

/-- A normal chaser ghost at (5, 5) moving up. -/
def ghostChaser : Ghost :=
  { start_cell := (13, 14), cell := (5, 5), direction := UP, speed := 1.8,
    state := GhostState.normal, vulnerable_timer := 0, home_cell := (13, 14),
    ghost_type := GhostType.chaser }

/-- `ghostChaser`, currently vulnerable. -/
def ghostA : Ghost :=
  { ghostChaser with state := GhostState.vulnerable, vulnerable_timer := 6000 }

/-- A second vulnerable ghost, at (6, 5). -/
def ghostB : Ghost := { ghostA with cell := (6, 5) }

/-- An eyes-state ghost standing on its home cell. -/
def ghostEyesHome : Ghost :=
  { ghostChaser with cell := (13, 14), state := GhostState.eyes, speed := 2.4 }

/-- Game state: two vulnerable ghosts, combo 0, free topology. -/
def gameTwoVuln : Game :=
  { maze := mazeFree, player := playerFix, ghosts := [ghostA, ghostB],
    score := 0, lives := 3, level := 1, power_duration_ms := 6000,
    ghost_score_base := 200, ghost_combo := 0, game_over := false }

/-- Game state: a single normal-state ghost about to collide. -/
def gameNormalHit : Game := { gameTwoVuln with ghosts := [ghostChaser] }

/-- Game state: the player stands on the last remaining dot. -/
def gameLastDot : Game :=
  { gameTwoVuln with maze := mazeOneDot,
                     player := { playerFix with cell := (0, 0) },
                     ghosts := [ghostChaser] }

/-- Game state: the player stands on a power pellet. -/
def gamePowerEat : Game :=
  { gameLastDot with maze := mazeOnePower }

/-- The raw tile character stored at a cell (the default `' '` outside the
stored rows, matching how an absent entry behaves in the queries above). -/
def tileAt (m : Maze) (c : Int × Int) : Char :=
  (m.grid.getD c.2.toNat []).getD c.1.toNat ' '

/-- The bounds test of `Maze.eat` and `Maze.is_gate`. -/
def inBounds (c : Int × Int) : Prop :=
  0 ≤ c.1 ∧ c.1 < COLS ∧ 0 ≤ c.2 ∧ c.2 < ROWS

/-! ### List helper lemmas -/

theorem listGetD_le_default {α : Type} (l : List α) (i : Nat) (d : α)
    (h : l.length ≤ i) : l.getD i d = d := by
  induction l generalizing i with
  | nil => simp [List.getD]
  | cons a t ih =>
    cases i with
    | zero => simp at h
    | succ n =>
      simp only [List.length_cons, Nat.succ_le_succ_iff] at h
      simpa [List.getD] using ih n h

theorem listGetD_lt_of_ne {α : Type} (l : List α) (i : Nat) (d : α)
    (h : l.getD i d ≠ d) : i < l.length := by
  by_contra hc
  exact h (listGetD_le_default l i d (Nat.le_of_not_lt hc))

theorem listGetD_set_self {α : Type} (l : List α) (i : Nat) (a d : α)
    (h : i < l.length) : (l.set i a).getD i d = a := by
  induction l generalizing i with
  | nil => simp at h
  | cons b t ih =>
    cases i with
    | zero => simp [List.getD]
    | succ n =>
      simp only [List.length_cons, Nat.succ_lt_succ_iff] at h
      simpa [List.getD, List.set] using ih n h

theorem listGetD_set_ne {α : Type} (l : List α) (i j : Nat) (a d : α)
    (h : i ≠ j) : (l.set i a).getD j d = l.getD j d := by
  induction l generalizing i j with
  | nil => simp
  | cons b t ih =>
    cases i with
    | zero =>
      cases j with
      | zero => exact absurd rfl h
      | succ n => simp [List.getD]
    | succ k =>
      cases j with
      | zero => simp [List.getD]
      | succ n =>
        simpa [List.getD, List.set] using ih k n (fun e => h (by omega))

/-! ### Collectible counting -/

theorem cc_nonneg (c : Char) : 0 ≤ cc c := by
  unfold cc; split <;> split <;> omega

theorem countCollect_nonneg (l : List Char) : 0 ≤ countCollect l := by
  induction l with
  | nil => simp [countCollect]
  | cons c r ih =>
    have := cc_nonneg c
    simp only [countCollect]; omega

theorem gridCollect_nonneg (g : List (List Char)) : 0 ≤ gridCollect g := by
  induction g with
  | nil => simp [gridCollect]
  | cons r t ih =>
    have := countCollect_nonneg r
    simp only [gridCollect, List.map_cons, List.sum_cons] at *
    omega

theorem countCollect_set (row : List Char) (x : Nat)
    (h : row.getD x ' ' = '.' ∨ row.getD x ' ' = 'o') :
    countCollect (row.set x ' ') = countCollect row - 1 := by
  induction row generalizing x with
  | nil => simp [List.getD] at h
  | cons c r ih =>
    cases x with
    | zero =>
      simp only [List.getD_cons_zero] at h
      rcases h with h | h <;> subst h <;> simp [countCollect, cc]
    | succ n =>
      simp only [List.getD_cons_succ] at h
      simp only [List.set, countCollect, ih n h]
      omega

theorem gridCollect_set (g : List (List Char)) (y : Nat) (row : List Char)
    (h : y < g.length) :
    gridCollect (g.set y row)
      = gridCollect g - countCollect (g.getD y []) + countCollect row := by
  induction g generalizing y with
  | nil => simp at h
  | cons r t ih =>
    cases y with
    | zero => simp [gridCollect, List.getD]; omega
    | succ n =>
      simp only [List.length_cons, Nat.succ_lt_succ_iff] at h
      simp only [List.set, gridCollect, List.map_cons, List.sum_cons,
        List.getD_cons_succ] at *
      rw [ih n h]; omega

theorem row_count_eq_countCollect (row : List Char) :
    ((row.count '.' : Nat) : Int) + ((row.count 'o' : Nat) : Int)
      = countCollect row := by
  induction row with
  | nil => simp [countCollect]
  | cons c r ih =>
    simp only [List.count_cons, countCollect, cc]
    push_cast
    rw [← ih]
    by_cases h1 : c = '.' <;> by_cases h2 : c = 'o' <;>
      simp [h1, h2, beq_iff_eq] <;> omega

theorem sums_eq_gridCollect (g : List (List Char)) :
    (((g.map (fun row => row.count '.')).sum : Nat) : Int)
      + (((g.map (fun row => row.count 'o')).sum : Nat) : Int)
      = gridCollect g := by
  induction g with
  | nil => simp [gridCollect]
  | cons r t ih =>
    simp only [List.map_cons, List.sum_cons, gridCollect] at *
    push_cast
    push_cast at ih
    rw [← ih, ← row_count_eq_countCollect r]
    ring

theorem mazeInv_init : mazeInv Maze.init := by
  show _ = _
  exact sums_eq_gridCollect _

/-! ### Maze.eat case lemmas -/

theorem eat_of_oob (m : Maze) (c : Int × Int) (h : ¬ inBounds c) :
    m.eat c = (m, none) := by
  unfold inBounds at h
  unfold Maze.eat
  rw [if_neg h]

theorem eat_of_dot (m : Maze) (c : Int × Int) (hin : inBounds c)
    (ht : tileAt m c = '.') :
    m.eat c = ({ grid := m.grid.set c.2.toNat
                   ((m.grid.getD c.2.toNat []).set c.1.toNat ' '),
                 dots_total := m.dots_total - 1 }, some Ate.dot) := by
  unfold inBounds at hin
  unfold Maze.eat
  rw [if_pos hin]
  unfold tileAt at ht
  dsimp only
  rw [ht]
  simp

theorem eat_of_power (m : Maze) (c : Int × Int) (hin : inBounds c)
    (ht : tileAt m c = 'o') :
    m.eat c = ({ grid := m.grid.set c.2.toNat
                   ((m.grid.getD c.2.toNat []).set c.1.toNat ' '),
                 dots_total := m.dots_total - 1 }, some Ate.power) := by
  unfold inBounds at hin
  unfold Maze.eat
  rw [if_pos hin]
  unfold tileAt at ht
  dsimp only
  have h1 : ¬ ((m.grid.getD c.2.toNat []).getD c.1.toNat ' ' = '.') := by
    rw [ht]; decide
  rw [if_neg h1, if_pos ht]

theorem eat_of_other (m : Maze) (c : Int × Int) (hin : inBounds c)
    (h1 : tileAt m c ≠ '.') (h2 : tileAt m c ≠ 'o') :
    m.eat c = (m, none) := by
  unfold inBounds at hin
  unfold Maze.eat
  rw [if_pos hin]
  unfold tileAt at h1 h2
  dsimp only
  rw [if_neg h1, if_neg h2]

theorem row_lt_of_tile (m : Maze) (c : Int × Int)
    (h : tileAt m c ≠ ' ') : c.2.toNat < m.grid.length := by
  by_contra hc
  unfold tileAt at h
  rw [listGetD_le_default _ _ _ (Nat.le_of_not_lt hc)] at h
  simp [List.getD] at h

theorem col_lt_of_tile (m : Maze) (c : Int × Int)
    (h : tileAt m c ≠ ' ') :
    c.1.toNat < (m.grid.getD c.2.toNat []).length :=
  listGetD_lt_of_ne _ _ _ h

theorem tileAt_after_eat (m : Maze) (c : Int × Int)
    (h : tileAt m c = '.' ∨ tileAt m c = 'o') :
    tileAt ({ grid := m.grid.set c.2.toNat
                ((m.grid.getD c.2.toNat []).set c.1.toNat ' '),
              dots_total := m.dots_total - 1 } : Maze) c = ' ' := by
  have hne : tileAt m c ≠ ' ' := by
    rcases h with h | h <;> rw [h] <;> decide
  have hy := row_lt_of_tile m c hne
  have hx := col_lt_of_tile m c hne
  unfold tileAt
  rw [listGetD_set_self _ _ _ _ hy, listGetD_set_self _ _ _ _ hx]

theorem eat_eat_self (m : Maze) (c : Int × Int) :
    ((m.eat c).1).eat c = ((m.eat c).1, none) := by
  by_cases hin : inBounds c
  · by_cases hd : tileAt m c = '.'
    · rw [eat_of_dot m c hin hd]
      exact eat_of_other _ c hin
        (by rw [tileAt_after_eat m c (Or.inl hd)]; decide)
        (by rw [tileAt_after_eat m c (Or.inl hd)]; decide)
    · by_cases hp : tileAt m c = 'o'
      · rw [eat_of_power m c hin hp]
        exact eat_of_other _ c hin
          (by rw [tileAt_after_eat m c (Or.inr hp)]; decide)
          (by rw [tileAt_after_eat m c (Or.inr hp)]; decide)
      · rw [eat_of_other m c hin hd hp]
        exact eat_of_other m c hin hd hp
  · rw [eat_of_oob m c hin]
    exact eat_of_oob m c hin

theorem mazeInv_eat (m : Maze) (c : Int × Int) (h : mazeInv m) :
    mazeInv (m.eat c).1 := by
  by_cases hin : inBounds c
  · by_cases hd : tileAt m c = '.'
    · rw [eat_of_dot m c hin hd]
      have hne : tileAt m c ≠ ' ' := by rw [hd]; decide
      have hy := row_lt_of_tile m c hne
      show m.dots_total - 1 = _
      rw [gridCollect_set _ _ _ hy, countCollect_set _ _ (Or.inl hd)]
      rw [mazeInv] at h
      omega
    · by_cases hp : tileAt m c = 'o'
      · rw [eat_of_power m c hin hp]
        have hne : tileAt m c ≠ ' ' := by rw [hp]; decide
        have hy := row_lt_of_tile m c hne
        show m.dots_total - 1 = _
        rw [gridCollect_set _ _ _ hy, countCollect_set _ _ (Or.inr hp)]
        rw [mazeInv] at h
        omega
      · rw [eat_of_other m c hin hd hp]; exact h
  · rw [eat_of_oob m c hin]; exact h

theorem eat_dots_le (m : Maze) (c : Int × Int) :
    (m.eat c).1.dots_total ≤ m.dots_total := by
  by_cases hin : inBounds c
  · by_cases hd : tileAt m c = '.'
    · rw [eat_of_dot m c hin hd]; dsimp only; omega
    · by_cases hp : tileAt m c = 'o'
      · rw [eat_of_power m c hin hp]; dsimp only; omega
      · rw [eat_of_other m c hin hd hp]
  · rw [eat_of_oob m c hin]

theorem mazeInv_eat_all (cs : List (Int × Int)) :
    ∀ m : Maze, mazeInv m → mazeInv (m.eat_all cs) := by
  induction cs with
  | nil => intro m h; exact h
  | cons c cs ih =>
    intro m h
    exact ih _ (mazeInv_eat m c h)

/-- C7: `Maze.eat` consumes an in-bounds dot or power-pellet tile by
blanking it to `' '`, decrementing the counter by exactly 1 and returning
the kind consumed; on every other tile (empty, wall, gate, marker) and on
every out-of-bounds cell it returns `none` and leaves grid and counter
unchanged; eating the same cell twice never consumes twice (the second
call is always a no-op returning `none`), and from any counter-consistent
maze the counter stays non-negative after an `eat`. -/
theorem claim_C7 :
    (∀ (m : Maze) (c : Int × Int), inBounds c → tileAt m c = '.' →
      (m.eat c).2 = some Ate.dot ∧
      (m.eat c).1.dots_total = m.dots_total - 1 ∧
      (m.eat c).1.grid
        = m.grid.set c.2.toNat ((m.grid.getD c.2.toNat []).set c.1.toNat ' ') ∧
      tileAt (m.eat c).1 c = ' ') ∧
    (∀ (m : Maze) (c : Int × Int), inBounds c → tileAt m c = 'o' →
      (m.eat c).2 = some Ate.power ∧
      (m.eat c).1.dots_total = m.dots_total - 1 ∧
      (m.eat c).1.grid
        = m.grid.set c.2.toNat ((m.grid.getD c.2.toNat []).set c.1.toNat ' ') ∧
      tileAt (m.eat c).1 c = ' ') ∧
    (∀ (m : Maze) (c : Int × Int),
      (¬ inBounds c ∨ (tileAt m c ≠ '.' ∧ tileAt m c ≠ 'o')) →
      m.eat c = (m, none)) ∧
    (∀ (m : Maze) (c : Int × Int),
      ((m.eat c).1).eat c = ((m.eat c).1, none)) ∧
    (∀ (m : Maze) (c : Int × Int), mazeInv m →
      0 ≤ (m.eat c).1.dots_total) := by
  refine ⟨?_, ?_, ?_, ?_, ?_⟩
  · intro m c hin ht
    rw [eat_of_dot m c hin ht]
    exact ⟨rfl, rfl, rfl, tileAt_after_eat m c (Or.inl ht)⟩
  · intro m c hin ht
    rw [eat_of_power m c hin ht]
    exact ⟨rfl, rfl, rfl, tileAt_after_eat m c (Or.inr ht)⟩
  · intro m c h
    rcases h with h | ⟨h1, h2⟩
    · exact eat_of_oob m c h
    · by_cases hin : inBounds c
      · exact eat_of_other m c hin h1 h2
      · exact eat_of_oob m c hin
  · exact eat_eat_self
  · intro m c h
    have h2 := mazeInv_eat m c h
    rw [mazeInv] at h2
    rw [h2]
    exact gridCollect_nonneg _

/-- Witness for C7: concrete single-tile mazes exercise every hypothesis
of `claim_C7`. -/
theorem claim_C7_witness :
    (mazeOneDot.eat (0, 0)).2 = some Ate.dot ∧
    (mazeOnePower.eat (0, 0)).2 = some Ate.power ∧
    mazeOneDot.eat (-1, 0) = (mazeOneDot, none) ∧
    0 ≤ (mazeOneDot.eat (0, 0)).1.dots_total :=
  ⟨(claim_C7.1 mazeOneDot (0, 0) (by unfold inBounds; decide) (by decide)).1,
   (claim_C7.2.1 mazeOnePower (0, 0) (by unfold inBounds; decide)
     (by decide)).1,
   claim_C7.2.2.1 mazeOneDot (-1, 0)
     (Or.inl (by unfold inBounds; decide)),
   claim_C7.2.2.2.2 mazeOneDot (0, 0) (by unfold mazeInv; decide)⟩

/-- C8: along any sequence of `eat` calls starting from the freshly
constructed maze, the remaining-pellet counter always equals the exact
number of collectible (`'.'` plus `'o'`) tiles present in the grid, and
every further `eat` keeps the counter the same or lowers it (so it is
non-increasing over the sequence). -/
theorem claim_C8 :
    (∀ cs : List (Int × Int),
      (Maze.init.eat_all cs).remaining_pellets
        = gridCollect (Maze.init.eat_all cs).grid) ∧
    (∀ (cs : List (Int × Int)) (c : Int × Int),
      (((Maze.init.eat_all cs).eat c).1).remaining_pellets
        ≤ (Maze.init.eat_all cs).remaining_pellets) :=
  ⟨fun cs => mazeInv_eat_all cs Maze.init mazeInv_init,
   fun cs c => eat_dots_le (Maze.init.eat_all cs) c⟩

/-! ### Argmin/argmax and choose_direction evaluation lemmas -/

theorem pyArgmin_mem (f : Int × Int → Int) :
    ∀ (ys : List (Int × Int)) (x : Int × Int), pyArgmin f x ys ∈ x :: ys := by
  intro ys
  induction ys with
  | nil => intro x; simp [pyArgmin]
  | cons y t ih =>
    intro x
    show pyArgmin f (if f y < f x then y else x) t ∈ x :: y :: t
    rcases List.mem_cons.mp (ih (if f y < f x then y else x)) with h | h
    · rw [h]
      split
      · exact List.mem_cons_of_mem _ (List.mem_cons_self _ _)
      · exact List.mem_cons_self _ _
    · exact List.mem_cons_of_mem _ (List.mem_cons_of_mem _ h)

theorem pyArgmin_le (f : Int × Int → Int) :
    ∀ (ys : List (Int × Int)) (x z : Int × Int),
      z ∈ x :: ys → f (pyArgmin f x ys) ≤ f z := by
  intro ys
  induction ys with
  | nil =>
    intro x z hz
    rcases List.mem_cons.mp hz with rfl | hz
    · exact le_refl _
    · simp at hz
  | cons y t ih =>
    intro x z hz
    show f (pyArgmin f (if f y < f x then y else x) t) ≤ f z
    have hhead : f (pyArgmin f (if f y < f x then y else x) t)
        ≤ f (if f y < f x then y else x) :=
      ih _ _ (List.mem_cons_self _ _)
    rcases List.mem_cons.mp hz with rfl | hz2
    · refine le_trans hhead ?_
      split
      · exact le_of_lt (by assumption)
      · exact le_refl _
    · rcases List.mem_cons.mp hz2 with rfl | hz3
      · refine le_trans hhead ?_
        split
        · exact le_refl _
        · exact le_of_not_lt (by assumption)
      · exact ih _ _ (List.mem_cons_of_mem _ hz3)

theorem pyArgmax_mem (f : Int × Int → Int) :
    ∀ (ys : List (Int × Int)) (x : Int × Int), pyArgmax f x ys ∈ x :: ys := by
  intro ys
  induction ys with
  | nil => intro x; simp [pyArgmax]
  | cons y t ih =>
    intro x
    show pyArgmax f (if f x < f y then y else x) t ∈ x :: y :: t
    rcases List.mem_cons.mp (ih (if f x < f y then y else x)) with h | h
    · rw [h]
      split
      · exact List.mem_cons_of_mem _ (List.mem_cons_self _ _)
      · exact List.mem_cons_self _ _
    · exact List.mem_cons_of_mem _ (List.mem_cons_of_mem _ h)

theorem pyArgmax_ge (f : Int × Int → Int) :
    ∀ (ys : List (Int × Int)) (x z : Int × Int),
      z ∈ x :: ys → f z ≤ f (pyArgmax f x ys) := by
  intro ys
  induction ys with
  | nil =>
    intro x z hz
    rcases List.mem_cons.mp hz with rfl | hz
    · exact le_refl _
    · simp at hz
  | cons y t ih =>
    intro x z hz
    show f z ≤ f (pyArgmax f (if f x < f y then y else x) t)
    have hhead : f (if f x < f y then y else x)
        ≤ f (pyArgmax f (if f x < f y then y else x) t) :=
      ih _ _ (List.mem_cons_self _ _)
    rcases List.mem_cons.mp hz with rfl | hz2
    · refine le_trans ?_ hhead
      split
      · exact le_of_lt (by assumption)
      · exact le_refl _
    · rcases List.mem_cons.mp hz2 with rfl | hz3
      · refine le_trans ?_ hhead
        split
        · exact le_refl _
        · exact le_of_not_lt (by assumption)
      · exact ih _ _ (List.mem_cons_of_mem _ hz3)

theorem listGetD_mem {α : Type} :
    ∀ (l : List α) (i : Nat) (d : α), i < l.length → l.getD i d ∈ l := by
  intro l
  induction l with
  | nil => intro i d h; simp at h
  | cons a t ih =>
    intro i d h
    cases i with
    | zero => exact List.mem_cons_self _ _
    | succ n =>
      simp only [List.length_cons, Nat.succ_lt_succ_iff] at h
      exact List.mem_cons_of_mem _ (ih n d h)

theorem mem_valid_dirs (g : Ghost) (m : Maze) (d : Int × Int)
    (h : d ∈ g.valid_dirs m) :
    d ∈ [UP, DOWN, LEFT, RIGHT] ∧ some d ≠ oppositeGet g.direction ∧
      g.can_move m g.cell d = true := by
  unfold Ghost.valid_dirs at h
  rcases List.mem_filter.mp h with ⟨h1, h2⟩
  rw [Bool.and_eq_true, decide_eq_true_eq] at h2
  exact ⟨h1, h2.1, h2.2⟩

theorem valid_dirs_eq_nil_can_move (g : Ghost) (m : Maze) (d : Int × Int)
    (hv : g.valid_dirs m = []) (hd : d ∈ [UP, DOWN, LEFT, RIGHT])
    (hop : some d ≠ oppositeGet g.direction) :
    g.can_move m g.cell d = false := by
  by_contra hc
  have hmem : d ∈ g.valid_dirs m := by
    unfold Ghost.valid_dirs
    refine List.mem_filter.mpr ⟨hd, ?_⟩
    rw [Bool.and_eq_true, decide_eq_true_eq]
    exact ⟨hop, by revert hc; cases g.can_move m g.cell d <;> simp⟩
  rw [hv] at hmem
  simp at hmem

theorem choose_direction_argmin (g : Ghost) (m : Maze) (target : Int × Int)
    (r : Nat) (d0 : Int × Int) (rest : List (Int × Int))
    (hv : g.valid_dirs m = d0 :: rest)
    (hs : ¬ (g.state = GhostState.vulnerable ∧ g.ghost_type = GhostType.chaser))
    (ht : ¬ g.ghost_type = GhostType.random) :
    g.choose_direction m target r
      = pyArgmin (fun d => Ghost.heuristic (Ghost.next_cell g.cell d) target)
          d0 rest := by
  unfold Ghost.choose_direction
  rw [hv]
  dsimp only
  rw [if_neg hs, if_neg ht]

theorem choose_direction_argmax (g : Ghost) (m : Maze) (target : Int × Int)
    (r : Nat) (d0 : Int × Int) (rest : List (Int × Int))
    (hv : g.valid_dirs m = d0 :: rest)
    (hs : g.state = GhostState.vulnerable ∧ g.ghost_type = GhostType.chaser) :
    g.choose_direction m target r
      = pyArgmax (fun d => Ghost.heuristic (Ghost.next_cell g.cell d) target)
          d0 rest := by
  unfold Ghost.choose_direction
  rw [hv]
  dsimp only
  rw [if_pos hs]

theorem choose_direction_random (g : Ghost) (m : Maze) (target : Int × Int)
    (r : Nat) (d0 : Int × Int) (rest : List (Int × Int))
    (hv : g.valid_dirs m = d0 :: rest)
    (hs : ¬ (g.state = GhostState.vulnerable ∧ g.ghost_type = GhostType.chaser))
    (ht : g.ghost_type = GhostType.random) :
    g.choose_direction m target r
      = (d0 :: rest).getD (r % (d0 :: rest).length) STOP := by
  unfold Ghost.choose_direction
  rw [hv]
  dsimp only
  rw [if_neg hs, if_pos ht]

theorem choose_direction_deadend (g : Ghost) (m : Maze) (target : Int × Int)
    (r : Nat) (hv : g.valid_dirs m = []) :
    g.choose_direction m target r
      = (if g.can_move m g.cell ((oppositeGet g.direction).getD STOP) then
           (oppositeGet g.direction).getD STOP
         else (([UP, DOWN, LEFT, RIGHT].filter
             (fun d => g.can_move m g.cell d)).head?).getD STOP) := by
  unfold Ghost.choose_direction
  rw [hv]

theorem choose_direction_mem (g : Ghost) (m : Maze) (target : Int × Int)
    (r : Nat) (d0 : Int × Int) (rest : List (Int × Int))
    (hv : g.valid_dirs m = d0 :: rest) :
    g.choose_direction m target r ∈ d0 :: rest := by
  by_cases hs : g.state = GhostState.vulnerable ∧ g.ghost_type = GhostType.chaser
  · rw [choose_direction_argmax g m target r d0 rest hv hs]
    exact pyArgmax_mem _ rest d0
  · by_cases ht : g.ghost_type = GhostType.random
    · rw [choose_direction_random g m target r d0 rest hv hs ht]
      refine listGetD_mem _ _ _ ?_
      exact Nat.mod_lt _ (by simp)
    · rw [choose_direction_argmin g m target r d0 rest hv hs ht]
      exact pyArgmin_mem _ rest d0

/-- C5: a ghost's direction choice never selects the reverse of its
current direction while some non-reverse candidate is legal (for every
policy, including the random wanderer); when every non-reverse candidate
is illegal it reverses if the reverse is legal, and otherwise — since the
non-reverse candidates were already all illegal, every cardinal is then
illegal, so the fallback scan finds nothing — it stops.  (The spec's
"otherwise any legal direction" fallback is exactly the code's scan of the
cardinals; the stop clause shows it can only ever resolve to stop.) -/
theorem claim_C5 :
    ∀ (g : Ghost) (m : Maze) (target : Int × Int) (r : Nat),
      (∀ (d0 : Int × Int) (rest : List (Int × Int)),
        g.valid_dirs m = d0 :: rest →
        g.choose_direction m target r ∈ d0 :: rest ∧
        oppositeGet g.direction ≠ some (g.choose_direction m target r)) ∧
      (g.valid_dirs m = [] →
        (g.can_move m g.cell ((oppositeGet g.direction).getD STOP) = true →
          g.choose_direction m target r
            = (oppositeGet g.direction).getD STOP) ∧
        (g.can_move m g.cell ((oppositeGet g.direction).getD STOP) = false →
          (∀ d ∈ [UP, DOWN, LEFT, RIGHT], g.can_move m g.cell d = false) ∧
          g.choose_direction m target r = STOP)) := by
  intro g m target r
  constructor
  · intro d0 rest hv
    have hmem := choose_direction_mem g m target r d0 rest hv
    refine ⟨hmem, ?_⟩
    have h2 := mem_valid_dirs g m _ (hv ▸ hmem)
    exact fun he => h2.2.1 he.symm
  · intro hv
    constructor
    · intro hrev
      rw [choose_direction_deadend g m target r hv, if_pos hrev]
    · intro hrev
      have hall : ∀ d ∈ [UP, DOWN, LEFT, RIGHT],
          g.can_move m g.cell d = false := by
        intro d hd
        by_cases hop : some d = oppositeGet g.direction
        · have : (oppositeGet g.direction).getD STOP = d := by
            rw [← hop]
            rfl
          rw [← this]
          exact hrev
        · exact valid_dirs_eq_nil_can_move g m d hv hd hop
      refine ⟨hall, ?_⟩
      rw [choose_direction_deadend g m target r hv,
        if_neg (by rw [hrev]; exact Bool.false_ne_true)]
      have hfil : [UP, DOWN, LEFT, RIGHT].filter
          (fun d => g.can_move m g.cell d) = [] := by
        rw [List.filter_eq_nil_iff]
        intro d hd
        rw [hall d hd]
        exact Bool.false_ne_true
      rw [hfil]
      rfl

/-- Witness for C5: `ghostChaser` in the all-free maze (candidates
survive), in `mazeRevOnly` (dead end, legal reversal) and in `mazeWalls`
(dead end, no legal move at all). -/
theorem claim_C5_witness :
    (ghostChaser.choose_direction mazeFree (5, 0) 0 ∈ [UP, LEFT, RIGHT] ∧
      oppositeGet ghostChaser.direction
        ≠ some (ghostChaser.choose_direction mazeFree (5, 0) 0)) ∧
    ghostChaser.choose_direction mazeRevOnly (0, 0) 0
      = (oppositeGet ghostChaser.direction).getD STOP ∧
    ghostChaser.choose_direction mazeWalls (0, 0) 0 = STOP :=
  ⟨(claim_C5 ghostChaser mazeFree (5, 0) 0).1 UP [LEFT, RIGHT] (by decide),
   ((claim_C5 ghostChaser mazeRevOnly (0, 0) 0).2 (by decide)).1 (by decide),
   (((claim_C5 ghostChaser mazeWalls (0, 0) 0).2 (by decide)).2 (by decide)).2⟩

theorem can_move_state_swap (g : Ghost) (m : Maze) (cell d : Int × Int)
    (s1 s2 : GhostState) (h1 : s1 ≠ GhostState.eyes)
    (h2 : s2 ≠ GhostState.eyes) :
    ({ g with state := s1 } : Ghost).can_move m cell d
      = ({ g with state := s2 } : Ghost).can_move m cell d := by
  unfold Ghost.can_move
  simp only [h1, h2, ne_eq, not_false_iff, and_true]

theorem valid_dirs_state_swap (g : Ghost) (m : Maze)
    (s1 s2 : GhostState) (h1 : s1 ≠ GhostState.eyes)
    (h2 : s2 ≠ GhostState.eyes) :
    ({ g with state := s1 } : Ghost).valid_dirs m
      = ({ g with state := s2 } : Ghost).valid_dirs m := by
  unfold Ghost.valid_dirs
  refine List.filter_congr ?_
  intro d _
  rw [can_move_state_swap g m g.cell d s1 s2 h1 h2]

/-- C4: for a chaser ghost with a non-empty candidate list, the normal
state picks a candidate whose resulting neighbour cell minimises Manhattan
distance to the target while the vulnerable state (same position, same
candidate list) picks one that maximises it, and whenever the candidates
do not all share one heuristic value the two picks differ. -/
theorem claim_C4 :
    ∀ (g : Ghost) (m : Maze) (target : Int × Int) (r : Nat),
      g.ghost_type = GhostType.chaser →
      ∀ (d0 : Int × Int) (rest : List (Int × Int)),
      ({ g with state := GhostState.normal } : Ghost).valid_dirs m
        = d0 :: rest →
      ({ g with state := GhostState.vulnerable } : Ghost).valid_dirs m
        = d0 :: rest ∧
      ({ g with state := GhostState.normal } : Ghost).choose_direction
        m target r ∈ d0 :: rest ∧
      (∀ d ∈ d0 :: rest,
        Ghost.heuristic (Ghost.next_cell g.cell
          (({ g with state := GhostState.normal } : Ghost).choose_direction
            m target r)) target
          ≤ Ghost.heuristic (Ghost.next_cell g.cell d) target) ∧
      ({ g with state := GhostState.vulnerable } : Ghost).choose_direction
        m target r ∈ d0 :: rest ∧
      (∀ d ∈ d0 :: rest,
        Ghost.heuristic (Ghost.next_cell g.cell d) target
          ≤ Ghost.heuristic (Ghost.next_cell g.cell
            (({ g with state := GhostState.vulnerable } : Ghost).choose_direction
              m target r)) target) ∧
      ((∃ d1 ∈ d0 :: rest, ∃ d2 ∈ d0 :: rest,
          Ghost.heuristic (Ghost.next_cell g.cell d1) target
            ≠ Ghost.heuristic (Ghost.next_cell g.cell d2) target) →
        ({ g with state := GhostState.normal } : Ghost).choose_direction
          m target r
          ≠ ({ g with state := GhostState.vulnerable } : Ghost).choose_direction
            m target r) := by
  intro g m target r htype d0 rest hvN
  have hvV : ({ g with state := GhostState.vulnerable } : Ghost).valid_dirs m
      = d0 :: rest := by
    rw [valid_dirs_state_swap g m GhostState.vulnerable GhostState.normal
      (by decide) (by decide)]
    exact hvN
  have hgtN : ({ g with state := GhostState.normal } : Ghost).ghost_type
      = GhostType.chaser := htype
  have heqN : ({ g with state := GhostState.normal } : Ghost).choose_direction
      m target r
      = pyArgmin (fun d => Ghost.heuristic (Ghost.next_cell g.cell d) target)
          d0 rest :=
    choose_direction_argmin _ m target r d0 rest hvN
      (fun h => by simpa using h.1)
      (fun h => absurd (hgtN.symm.trans h) (by decide))
  have heqV : ({ g with state := GhostState.vulnerable } : Ghost).choose_direction
      m target r
      = pyArgmax (fun d => Ghost.heuristic (Ghost.next_cell g.cell d) target)
          d0 rest :=
    choose_direction_argmax _ m target r d0 rest hvV ⟨rfl, htype⟩
  refine ⟨hvV, ?_, ?_, ?_, ?_, ?_⟩
  · rw [heqN]; exact pyArgmin_mem _ rest d0
  · intro d hd
    rw [heqN]
    exact pyArgmin_le (fun d => Ghost.heuristic (Ghost.next_cell g.cell d)
      target) rest d0 d hd
  · rw [heqV]; exact pyArgmax_mem _ rest d0
  · intro d hd
    rw [heqV]
    exact pyArgmax_ge (fun d => Ghost.heuristic (Ghost.next_cell g.cell d)
      target) rest d0 d hd
  · rintro ⟨d1, hd1, d2, hd2, hne⟩ heq
    rw [heqN, heqV] at heq
    have h1 := pyArgmin_le (fun d => Ghost.heuristic (Ghost.next_cell g.cell d)
      target) rest d0 d1 hd1
    have h2 := pyArgmax_ge (fun d => Ghost.heuristic (Ghost.next_cell g.cell d)
      target) rest d0 d1 hd1
    have h3 := pyArgmin_le (fun d => Ghost.heuristic (Ghost.next_cell g.cell d)
      target) rest d0 d2 hd2
    have h4 := pyArgmax_ge (fun d => Ghost.heuristic (Ghost.next_cell g.cell d)
      target) rest d0 d2 hd2
    rw [heq] at h1 h3
    exact hne (le_antisymm (le_trans h2 h3) (le_trans h4 h1))

/-- Witness for C4: `ghostChaser` at (5, 5) in the free maze with target
(5, 0): normal picks `UP` (distance 4) while vulnerable flees to `LEFT`
(distance 6). -/
theorem claim_C4_witness :
    ({ ghostChaser with state := GhostState.vulnerable } : Ghost).valid_dirs
      mazeFree = [UP, LEFT, RIGHT] ∧
    ({ ghostChaser with state := GhostState.normal } : Ghost).choose_direction
      mazeFree (5, 0) 0
      ≠ ({ ghostChaser with state := GhostState.vulnerable } : Ghost).choose_direction
        mazeFree (5, 0) 0 := by
  have h := claim_C4 ghostChaser mazeFree (5, 0) 0 rfl UP [LEFT, RIGHT]
    (by decide)
  exact ⟨h.1, h.2.2.2.2.2 (by refine ⟨UP, by decide, LEFT, by decide, by decide⟩)⟩

/-- C6: `is_wall` reads column −1 as column `COLS - 1` and column `COLS`
as column 0, and reports every cell with row below 0 or at/above `ROWS` as
a wall; step advancement (`next_cell`) performs the same horizontal wrap
and never changes the row beyond the plain vertical offset. -/
theorem claim_C6 :
    (∀ (m : Maze) (y : Int), m.is_wall (-1, y) = m.is_wall (COLS - 1, y)) ∧
    (∀ (m : Maze) (y : Int), m.is_wall (COLS, y) = m.is_wall (0, y)) ∧
    (∀ (m : Maze) (x y : Int), y < 0 ∨ ROWS ≤ y → m.is_wall (x, y) = true) ∧
    (∀ (c d : Int × Int), c.1 + d.1 = -1 →
      Ghost.next_cell c d = (COLS - 1, c.2 + d.2)) ∧
    (∀ (c d : Int × Int), c.1 + d.1 = COLS →
      Ghost.next_cell c d = (0, c.2 + d.2)) ∧
    (∀ (c d : Int × Int), 0 ≤ c.1 + d.1 → c.1 + d.1 < COLS →
      Ghost.next_cell c d = (c.1 + d.1, c.2 + d.2)) ∧
    (∀ (c d : Int × Int), (Ghost.next_cell c d).2 = c.2 + d.2) := by
  refine ⟨?_, ?_, ?_, ?_, ?_, ?_, ?_⟩
  · intro m y
    unfold Maze.is_wall
    norm_num [COLS]
  · intro m y
    unfold Maze.is_wall
    norm_num [COLS]
  · intro m x y h
    unfold Maze.is_wall
    dsimp only
    rw [if_pos h]
  · intro c d h
    unfold Ghost.next_cell
    dsimp only
    rw [h]
    norm_num [COLS]
  · intro c d h
    unfold Ghost.next_cell
    dsimp only
    rw [h]
    norm_num [COLS]
  · intro c d h1 h2
    unfold Ghost.next_cell
    dsimp only
    rw [if_neg (by omega), if_neg (by omega)]
  · intro c d
    unfold Ghost.next_cell
    dsimp only

/-- Witness for C6: the wrap and out-of-bounds hypotheses hold at the
tunnel row of the real maze and at a step off either edge. -/
theorem claim_C6_witness :
    Maze.init.is_wall (5, -1) = true ∧
    Ghost.next_cell (0, 14) LEFT = (COLS - 1, (0, 14).2 + LEFT.2) ∧
    Ghost.next_cell (27, 14) RIGHT = (0, (27, 14).2 + RIGHT.2) ∧
    Ghost.next_cell (3, 14) RIGHT = ((3, 14).1 + RIGHT.1, (3, 14).2 + RIGHT.2) :=
  ⟨claim_C6.2.2.1 Maze.init 5 (-1) (Or.inl (by norm_num)),
   claim_C6.2.2.2.1 (0, 14) LEFT (by decide),
   claim_C6.2.2.2.2.1 (27, 14) RIGHT (by decide),
   claim_C6.2.2.2.2.2.1 (3, 14) RIGHT (by decide) (by decide)⟩

/-- C9: the lifecycle transitions — the vulnerability broadcast turns a
normal or vulnerable ghost vulnerable with the given countdown and leaves
an eyes ghost entirely unchanged; a vulnerable ghost's countdown is
decremented by the tick duration and the ghost returns to normal exactly
when the decremented countdown is zero or below; `revive_if_at_home`
turns a ghost normal exactly when it is in eyes state on its home cell,
and changes nothing otherwise. -/
theorem claim_C9 :
    (∀ (g : Ghost) (dur : Int), g.state = GhostState.eyes →
      g.set_vulnerable dur = g) ∧
    (∀ (g : Ghost) (dur : Int), g.state ≠ GhostState.eyes →
      (g.set_vulnerable dur).state = GhostState.vulnerable ∧
      (g.set_vulnerable dur).vulnerable_timer = dur ∧
      (g.set_vulnerable dur).cell = g.cell ∧
      (g.set_vulnerable dur).direction = g.direction ∧
      (g.set_vulnerable dur).speed = g.speed) ∧
    (∀ (g : Ghost) (dt : Int), g.state = GhostState.vulnerable →
      (g.update_timer dt).vulnerable_timer = g.vulnerable_timer - dt ∧
      ((g.update_timer dt).state = GhostState.normal ↔
        g.vulnerable_timer - dt ≤ 0)) ∧
    (∀ (g : Ghost) (dt : Int), g.state ≠ GhostState.vulnerable →
      g.update_timer dt = g) ∧
    (∀ (g : Ghost) (r : Nat), g.state = GhostState.eyes →
      ((g.revive_if_at_home r).state = GhostState.normal ↔
        g.cell = g.home_cell)) ∧
    (∀ (g : Ghost) (r : Nat),
      ¬ (g.state = GhostState.eyes ∧ g.cell = g.home_cell) →
      g.revive_if_at_home r = g) := by
  refine ⟨?_, ?_, ?_, ?_, ?_, ?_⟩
  · intro g dur h
    unfold Ghost.set_vulnerable
    rw [if_pos h]
  · intro g dur h
    unfold Ghost.set_vulnerable
    rw [if_neg h]
    exact ⟨rfl, rfl, rfl, rfl, rfl⟩
  · intro g dt h
    unfold Ghost.update_timer
    rw [if_pos h]
    dsimp only
    by_cases hc : g.vulnerable_timer - dt ≤ 0
    · rw [if_pos hc]
      exact ⟨rfl, by simpa using hc⟩
    · rw [if_neg hc]
      refine ⟨rfl, ?_⟩
      constructor
      · intro he
        rw [h] at he
        exact absurd he (by decide)
      · intro he
        exact absurd he hc
  · intro g dt h
    unfold Ghost.update_timer
    rw [if_neg h]
  · intro g r h
    unfold Ghost.revive_if_at_home
    by_cases hc : g.cell = g.home_cell
    · rw [if_pos ⟨h, hc⟩]
      exact ⟨fun _ => hc, fun _ => rfl⟩
    · rw [if_neg (fun hh => hc hh.2)]
      constructor
      · intro he
        rw [h] at he
        exact absurd he (by decide)
      · intro he
        exact absurd he hc
  · intro g r h
    unfold Ghost.revive_if_at_home
    rw [if_neg h]

/-- Witness for C9 at concrete ghosts: the broadcast on a normal ghost, an
eyes ghost left unchanged, timer expiry, and revival on the home cell. -/
theorem claim_C9_witness :
    (ghostChaser.set_vulnerable 6000).state = GhostState.vulnerable ∧
    ghostEyesHome.set_vulnerable 6000 = ghostEyesHome ∧
    ((ghostA.update_timer 7000).state = GhostState.normal ↔
      ghostA.vulnerable_timer - 7000 ≤ 0) ∧
    ghostChaser.update_timer 16 = ghostChaser ∧
    ((ghostEyesHome.revive_if_at_home 0).state = GhostState.normal ↔
      ghostEyesHome.cell = ghostEyesHome.home_cell) ∧
    ghostChaser.revive_if_at_home 0 = ghostChaser :=
  ⟨(claim_C9.2.1 ghostChaser 6000 (by decide)).1,
   claim_C9.1 ghostEyesHome 6000 (by decide),
   (claim_C9.2.2.1 ghostA 7000 (by decide)).2,
   claim_C9.2.2.2.1 ghostChaser 16 (by decide),
   claim_C9.2.2.2.2.1 ghostEyesHome 0 (by decide),
   claim_C9.2.2.2.2.2 ghostChaser 0 (by decide)⟩

/-! ### List get? helpers and reset properties -/

theorem listGet?_lt {α : Type} :
    ∀ (l : List α) (i : Nat) (x : α), l.get? i = some x → i < l.length := by
  intro l
  induction l with
  | nil => intro i x h; simp at h
  | cons a t ih =>
    intro i x h
    cases i with
    | zero => simp
    | succ n =>
      simp only [List.get?_cons_succ] at h
      simpa using ih n x h

theorem listGet?_set_self {α : Type} :
    ∀ (l : List α) (i : Nat) (a : α), i < l.length →
      (l.set i a).get? i = some a := by
  intro l
  induction l with
  | nil => intro i a h; simp at h
  | cons b t ih =>
    intro i a h
    cases i with
    | zero => rfl
    | succ n =>
      simp only [List.length_cons, Nat.succ_lt_succ_iff] at h
      simpa [List.set] using ih n a h

theorem listGet?_set_ne {α : Type} :
    ∀ (l : List α) (i j : Nat) (a : α), i ≠ j →
      (l.set i a).get? j = l.get? j := by
  intro l
  induction l with
  | nil => intro i j a _; simp
  | cons b t ih =>
    intro i j a h
    cases i with
    | zero =>
      cases j with
      | zero => exact absurd rfl h
      | succ n => rfl
    | succ k =>
      cases j with
      | zero => rfl
      | succ n =>
        simpa [List.set] using ih k n a (fun e => h (by omega))

theorem randDir_mem (r : Nat) : randDir r ∈ [UP, DOWN, LEFT, RIGHT] :=
  listGetD_mem _ _ _ (Nat.mod_lt _ (by norm_num))

theorem ghost_reset_props (g : Ghost) (r : Nat) :
    (g.reset r).cell = (g.reset r).start_cell ∧
    (g.reset r).state = GhostState.normal ∧
    (g.reset r).direction ∈ [UP, DOWN, LEFT, RIGHT] ∧
    (g.reset r).vulnerable_timer = 0 :=
  ⟨rfl, rfl, randDir_mem r, rfl⟩

theorem mem_resetGhosts (rng : Nat → Nat) :
    ∀ (gs : List Ghost) (i : Nat) (gg : Ghost),
      gg ∈ resetGhosts rng i gs → ∃ (g : Ghost) (r : Nat), gg = g.reset r := by
  intro gs
  induction gs with
  | nil => intro i gg h; simp [resetGhosts] at h
  | cons g t ih =>
    intro i gg h
    rcases List.mem_cons.mp h with rfl | h2
    · exact ⟨g, rng i, rfl⟩
    · exact ih (i + 1) gg h2

theorem reset_positions_props (gm : Game) (rng : Nat → Nat) :
    (gm.reset_positions rng).lives = gm.lives ∧
    (gm.reset_positions rng).score = gm.score ∧
    (gm.reset_positions rng).level = gm.level ∧
    (gm.reset_positions rng).ghost_combo = gm.ghost_combo ∧
    (gm.reset_positions rng).game_over = gm.game_over ∧
    (gm.reset_positions rng).maze = gm.maze ∧
    (gm.reset_positions rng).player.cell
      = (gm.reset_positions rng).player.start_cell ∧
    (gm.reset_positions rng).player.direction = STOP ∧
    (∀ gg ∈ (gm.reset_positions rng).ghosts,
      gg.cell = gg.start_cell ∧ gg.state = GhostState.normal ∧
      gg.direction ∈ [UP, DOWN, LEFT, RIGHT]) := by
  refine ⟨rfl, rfl, rfl, rfl, rfl, rfl, rfl, rfl, ?_⟩
  intro gg hg
  rcases mem_resetGhosts rng gm.ghosts 0 gg hg with ⟨g, r, rfl⟩
  exact ⟨(ghost_reset_props g r).1, (ghost_reset_props g r).2.1,
    (ghost_reset_props g r).2.2.1⟩

theorem next_level_props (gm : Game) (rng : Nat → Nat) :
    (gm.next_level rng).lives = gm.lives ∧
    (gm.next_level rng).score = gm.score ∧
    (gm.next_level rng).level = gm.level + 1 ∧
    (gm.next_level rng).ghost_combo = gm.ghost_combo ∧
    (gm.next_level rng).maze = Maze.init ∧
    (gm.next_level rng).player.cell
      = (gm.next_level rng).player.start_cell ∧
    (gm.next_level rng).player.direction = STOP ∧
    (∀ gg ∈ (gm.next_level rng).ghosts,
      gg.cell = gg.start_cell ∧ gg.state = GhostState.normal ∧
      gg.direction ∈ [UP, DOWN, LEFT, RIGHT]) := by
  have h := reset_positions_props
    { gm with maze := Maze.init, level := gm.level + 1 } rng
  exact ⟨h.1, h.2.1, h.2.2.1, h.2.2.2.1, h.2.2.2.2.2.1, h.2.2.2.2.2.2.1,
    h.2.2.2.2.2.2.2.1, h.2.2.2.2.2.2.2.2⟩

theorem range_split (j n : Nat) (h : j < n) :
    ∃ t : List Nat, List.range n = List.range j ++ j :: t := by
  induction n with
  | zero => omega
  | succ m ih =>
    by_cases hj : j = m
    · subst hj
      exact ⟨[], by rw [List.range_succ]⟩
    · rcases ih (by omega) with ⟨t, ht⟩
      refine ⟨t ++ [m], ?_⟩
      rw [List.range_succ, ht]
      simp

/-! ### eat_phase evaluation lemmas -/

theorem eat_none_fst (m : Maze) (c : Int × Int)
    (h : (m.eat c).2 = none) : (m.eat c).1 = m := by
  by_cases hin : inBounds c
  · by_cases hd : tileAt m c = '.'
    · rw [eat_of_dot m c hin hd] at h
      simp at h
    · by_cases hp : tileAt m c = 'o'
      · rw [eat_of_power m c hin hp] at h
        simp at h
      · rw [eat_of_other m c hin hd hp]
  · rw [eat_of_oob m c hin]

theorem eat_phase_of_dot (gm : Game)
    (h : (gm.maze.eat gm.player.cell).2 = some Ate.dot) :
    gm.eat_phase = { gm with maze := (gm.maze.eat gm.player.cell).1,
                             score := gm.score + 10 } := by
  unfold Game.eat_phase
  dsimp only
  rw [h]

theorem eat_phase_of_power (gm : Game)
    (h : (gm.maze.eat gm.player.cell).2 = some Ate.power) :
    gm.eat_phase = { gm with maze := (gm.maze.eat gm.player.cell).1,
                             score := gm.score + 50, ghost_combo := 0,
                             ghosts := gm.ghosts.map
                               (fun g => g.set_vulnerable gm.power_duration_ms)
                   } := by
  unfold Game.eat_phase
  dsimp only
  rw [h]

theorem eat_phase_of_none (gm : Game)
    (h : (gm.maze.eat gm.player.cell).2 = none) : gm.eat_phase = gm := by
  unfold Game.eat_phase
  dsimp only
  rw [h, eat_none_fst gm.maze gm.player.cell h]

theorem eat_phase_frame (gm : Game) :
    (gm.eat_phase).lives = gm.lives ∧
    (gm.eat_phase).level = gm.level ∧
    (gm.eat_phase).game_over = gm.game_over ∧
    (gm.eat_phase).player = gm.player ∧
    (gm.eat_phase).ghost_score_base = gm.ghost_score_base ∧
    (gm.eat_phase).ghosts.length = gm.ghosts.length := by
  rcases he : (gm.maze.eat gm.player.cell).2 with _ | a
  · rw [eat_phase_of_none gm he]
    exact ⟨rfl, rfl, rfl, rfl, rfl, rfl⟩
  · cases a
    · rw [eat_phase_of_dot gm he]
      exact ⟨rfl, rfl, rfl, rfl, rfl, rfl⟩
    · rw [eat_phase_of_power gm he]
      exact ⟨rfl, rfl, rfl, rfl, rfl, by simp⟩

theorem eat_phase_not_power (gm : Game)
    (h : (gm.maze.eat gm.player.cell).2 ≠ some Ate.power) :
    (gm.eat_phase).ghost_combo = gm.ghost_combo ∧
    (gm.eat_phase).ghosts = gm.ghosts ∧
    (gm.eat_phase).ghost_score_base = gm.ghost_score_base ∧
    (gm.eat_phase).game_over = gm.game_over := by
  rcases he : (gm.maze.eat gm.player.cell).2 with _ | a
  · rw [eat_phase_of_none gm he]
    exact ⟨rfl, rfl, rfl, rfl⟩
  · cases a
    · rw [eat_phase_of_dot gm he]
      exact ⟨rfl, rfl, rfl, rfl⟩
    · exact absurd he h

/-! ### collision_pass step lemmas -/

theorem collision_pass_nil (rng : Nat → Nat) (collide : Nat → Bool)
    (gm : Game) : Game.collision_pass rng collide [] gm = gm := rfl

theorem collision_pass_cons_none (rng : Nat → Nat) (collide : Nat → Bool)
    (i : Nat) (rest : List Nat) (gm : Game)
    (hg : gm.ghosts.get? i = none) :
    Game.collision_pass rng collide (i :: rest) gm
      = Game.collision_pass rng collide rest gm := by
  conv_lhs => unfold Game.collision_pass
  rw [hg]

theorem collision_pass_cons_nocollide (rng : Nat → Nat) (collide : Nat → Bool)
    (i : Nat) (rest : List Nat) (gm : Game) (g : Ghost)
    (hg : gm.ghosts.get? i = some g) (hc : collide i = false) :
    Game.collision_pass rng collide (i :: rest) gm
      = Game.collision_pass rng collide rest gm := by
  conv_lhs => unfold Game.collision_pass
  rw [hg]
  dsimp only
  rw [if_neg (by rw [hc]; exact Bool.false_ne_true)]

theorem collision_pass_cons_eyes (rng : Nat → Nat) (collide : Nat → Bool)
    (i : Nat) (rest : List Nat) (gm : Game) (g : Ghost)
    (hg : gm.ghosts.get? i = some g) (hs : g.state = GhostState.eyes) :
    Game.collision_pass rng collide (i :: rest) gm
      = Game.collision_pass rng collide rest gm := by
  conv_lhs => unfold Game.collision_pass
  rw [hg]
  dsimp only
  split
  · rw [if_neg (by rw [hs]; decide), if_neg (by rw [hs]; decide)]
  · rfl

theorem collision_pass_cons_eaten (rng : Nat → Nat) (collide : Nat → Bool)
    (i : Nat) (rest : List Nat) (gm : Game) (g : Ghost)
    (hg : gm.ghosts.get? i = some g) (hc : collide i = true)
    (hs : g.state = GhostState.vulnerable) :
    Game.collision_pass rng collide (i :: rest) gm
      = Game.collision_pass rng collide rest
          { gm with ghosts := gm.ghosts.set i g.eaten,
                    ghost_combo := gm.ghost_combo + 1,
                    score := gm.score + gm.ghost_score_base
                      * 2 ^ (gm.ghost_combo + 1 - 1) } := by
  conv_lhs => unfold Game.collision_pass
  rw [hg]
  dsimp only
  rw [if_pos (by rw [hc]), if_pos hs]

theorem collision_pass_cons_break (rng : Nat → Nat) (collide : Nat → Bool)
    (i : Nat) (rest : List Nat) (gm : Game) (g : Ghost)
    (hg : gm.ghosts.get? i = some g) (hc : collide i = true)
    (hs : g.state = GhostState.normal) :
    Game.collision_pass rng collide (i :: rest) gm
      = Game.reset_positions
          { gm with lives := gm.lives - 1,
                    game_over := if gm.lives - 1 ≤ 0 then true
                                 else gm.game_over } rng := by
  conv_lhs => unfold Game.collision_pass
  rw [hg]
  dsimp only
  rw [if_pos (by rw [hc]), if_neg (by rw [hs]; decide), if_pos hs]

theorem collision_pass_congr (rng : Nat → Nat) (c1 c2 : Nat → Bool) :
    ∀ (is : List Nat) (gm : Game), (∀ i ∈ is, c1 i = c2 i) →
      Game.collision_pass rng c1 is gm = Game.collision_pass rng c2 is gm := by
  intro is
  induction is with
  | nil => intro gm _; rfl
  | cons i rest ih =>
    intro gm h
    have hi : c1 i = c2 i := h i (List.mem_cons_self _ _)
    have hrest : ∀ j ∈ rest, c1 j = c2 j :=
      fun j hj => h j (List.mem_cons_of_mem _ hj)
    cases hg : gm.ghosts.get? i with
    | none =>
      rw [collision_pass_cons_none rng c1 i rest gm hg,
        collision_pass_cons_none rng c2 i rest gm hg]
      exact ih gm hrest
    | some g =>
      cases hc : c1 i with
      | false =>
        rw [collision_pass_cons_nocollide rng c1 i rest gm g hg hc,
          collision_pass_cons_nocollide rng c2 i rest gm g hg (hi ▸ hc)]
        exact ih gm hrest
      | true =>
        cases hs : g.state with
        | normal =>
          rw [collision_pass_cons_break rng c1 i rest gm g hg hc hs,
            collision_pass_cons_break rng c2 i rest gm g hg (hi ▸ hc) hs]
        | vulnerable =>
          rw [collision_pass_cons_eaten rng c1 i rest gm g hg hc hs,
            collision_pass_cons_eaten rng c2 i rest gm g hg (hi ▸ hc) hs]
          exact ih _ hrest
        | eyes =>
          rw [collision_pass_cons_eyes rng c1 i rest gm g hg hs,
            collision_pass_cons_eyes rng c2 i rest gm g hg hs]
          exact ih gm hrest

theorem collision_pass_nocollide (rng : Nat → Nat) (collide : Nat → Bool) :
    ∀ (is : List Nat) (gm : Game), (∀ i ∈ is, collide i = false) →
      Game.collision_pass rng collide is gm = gm := by
  intro is
  induction is with
  | nil => intro gm _; rfl
  | cons i rest ih =>
    intro gm h
    have hrest : ∀ j ∈ rest, collide j = false :=
      fun j hj => h j (List.mem_cons_of_mem _ hj)
    cases hg : gm.ghosts.get? i with
    | none =>
      rw [collision_pass_cons_none rng collide i rest gm hg]
      exact ih gm hrest
    | some g =>
      rw [collision_pass_cons_nocollide rng collide i rest gm g hg
        (h i (List.mem_cons_self _ _))]
      exact ih gm hrest

theorem collision_pass_append (rng : Nat → Nat) (collide : Nat → Bool) :
    ∀ (is1 is2 : List Nat) (gm : Game),
      (∀ i ∈ is1, ∀ g : Ghost, gm.ghosts.get? i = some g →
        collide i = true → g.state ≠ GhostState.normal) →
      Game.collision_pass rng collide (is1 ++ is2) gm
        = Game.collision_pass rng collide is2
            (Game.collision_pass rng collide is1 gm) := by
  intro is1
  induction is1 with
  | nil => intro is2 gm _; rfl
  | cons i rest ih =>
    intro is2 gm H
    have Hrest : ∀ j ∈ rest, ∀ g : Ghost, gm.ghosts.get? j = some g →
        collide j = true → g.state ≠ GhostState.normal :=
      fun j hj => H j (List.mem_cons_of_mem _ hj)
    rw [List.cons_append]
    cases hg : gm.ghosts.get? i with
    | none =>
      rw [collision_pass_cons_none rng collide i (rest ++ is2) gm hg,
        collision_pass_cons_none rng collide i rest gm hg]
      exact ih is2 gm Hrest
    | some g =>
      cases hc : collide i with
      | false =>
        rw [collision_pass_cons_nocollide rng collide i (rest ++ is2) gm g hg hc,
          collision_pass_cons_nocollide rng collide i rest gm g hg hc]
        exact ih is2 gm Hrest
      | true =>
        cases hs : g.state with
        | normal => exact absurd hs (H i (List.mem_cons_self _ _) g hg hc)
        | vulnerable =>
          rw [collision_pass_cons_eaten rng collide i (rest ++ is2) gm g hg hc hs,
            collision_pass_cons_eaten rng collide i rest gm g hg hc hs]
          refine ih is2 _ ?_
          intro j hj g' hg' hc'
          by_cases hij : i = j
          · subst hij
            rw [listGet?_set_self gm.ghosts i g.eaten
              (listGet?_lt gm.ghosts i g hg)] at hg'
            injection hg' with he
            rw [← he]
            intro hcon
            exact absurd hcon (by unfold Ghost.eaten; dsimp only; decide)
          · rw [listGet?_set_ne gm.ghosts i j g.eaten hij] at hg'
            exact Hrest j hj g' hg' hc'
        | eyes =>
          rw [collision_pass_cons_eyes rng collide i (rest ++ is2) gm g hg hs,
            collision_pass_cons_eyes rng collide i rest gm g hg hs]
          exact ih is2 gm Hrest

theorem collision_pass_spec (rng : Nat → Nat) (collide : Nat → Bool) :
    ∀ (is : List Nat) (gm : Game), is.Nodup →
    (∀ i ∈ is, ∀ g : Ghost, gm.ghosts.get? i = some g → collide i = true →
      g.state ≠ GhostState.normal) →
    (Game.collision_pass rng collide is gm).ghost_combo
        = gm.ghost_combo + (is.filter (fun j => collide j &&
            ((gm.ghosts.get? j).any
              (fun g => g.state == GhostState.vulnerable)))).length ∧
    (Game.collision_pass rng collide is gm).score
        = gm.score + gm.ghost_score_base *
            ((2 : Int) ^ (gm.ghost_combo + (is.filter (fun j => collide j &&
                ((gm.ghosts.get? j).any
                  (fun g => g.state == GhostState.vulnerable)))).length)
              - (2 : Int) ^ gm.ghost_combo) ∧
    (Game.collision_pass rng collide is gm).maze = gm.maze ∧
    (Game.collision_pass rng collide is gm).player = gm.player ∧
    (Game.collision_pass rng collide is gm).lives = gm.lives ∧
    (Game.collision_pass rng collide is gm).level = gm.level ∧
    (Game.collision_pass rng collide is gm).game_over = gm.game_over ∧
    (Game.collision_pass rng collide is gm).ghost_score_base
        = gm.ghost_score_base ∧
    (Game.collision_pass rng collide is gm).ghosts.length
        = gm.ghosts.length ∧
    (∀ j, j ∉ is → (Game.collision_pass rng collide is gm).ghosts.get? j
        = gm.ghosts.get? j) := by
  intro is
  induction is with
  | nil =>
    intro gm _ _
    rw [collision_pass_nil]
    refine ⟨by simp, by simp, rfl, rfl, rfl, rfl, rfl, rfl, rfl,
      fun j _ => rfl⟩
  | cons i rest ih =>
    intro gm hnd H
    obtain ⟨hnotin, hnd2⟩ := List.nodup_cons.mp hnd
    have Hrest : ∀ j ∈ rest, ∀ g : Ghost, gm.ghosts.get? j = some g →
        collide j = true → g.state ≠ GhostState.normal :=
      fun j hj => H j (List.mem_cons_of_mem _ hj)
    cases hg : gm.ghosts.get? i with
    | none =>
      have hP : (collide i && ((gm.ghosts.get? i).any
          (fun g => g.state == GhostState.vulnerable))) = false := by
        rw [hg]
        simp
      rw [collision_pass_cons_none rng collide i rest gm hg,
        List.filter_cons]
      simp only [hP, Bool.false_eq_true, if_false]
      obtain ⟨h1, h2, h3, h4, h5, h6, h7, h8, h9, h10⟩ := ih gm hnd2 Hrest
      exact ⟨h1, h2, h3, h4, h5, h6, h7, h8, h9,
        fun j hj => h10 j (fun e => hj (List.mem_cons_of_mem _ e))⟩
    | some g =>
      cases hc : collide i with
      | false =>
        have hP : (collide i && ((gm.ghosts.get? i).any
            (fun g => g.state == GhostState.vulnerable))) = false := by
          rw [hc]
          simp
        rw [collision_pass_cons_nocollide rng collide i rest gm g hg hc,
          List.filter_cons]
        simp only [hP, Bool.false_eq_true, if_false]
        obtain ⟨h1, h2, h3, h4, h5, h6, h7, h8, h9, h10⟩ := ih gm hnd2 Hrest
        exact ⟨h1, h2, h3, h4, h5, h6, h7, h8, h9,
          fun j hj => h10 j (fun e => hj (List.mem_cons_of_mem _ e))⟩
      | true =>
        cases hs : g.state with
        | normal => exact absurd hs (H i (List.mem_cons_self _ _) g hg hc)
        | eyes =>
          have hP : (collide i && ((gm.ghosts.get? i).any
              (fun g => g.state == GhostState.vulnerable))) = false := by
            rw [hg]
            simp [hs]
          rw [collision_pass_cons_eyes rng collide i rest gm g hg hs,
            List.filter_cons]
          simp only [hP, Bool.false_eq_true, if_false]
          obtain ⟨h1, h2, h3, h4, h5, h6, h7, h8, h9, h10⟩ :=
            ih gm hnd2 Hrest
          exact ⟨h1, h2, h3, h4, h5, h6, h7, h8, h9,
            fun j hj => h10 j (fun e => hj (List.mem_cons_of_mem _ e))⟩
        | vulnerable =>
          have hP : (collide i && ((gm.ghosts.get? i).any
              (fun g => g.state == GhostState.vulnerable))) = true := by
            rw [hg, hc]
            simp [hs]
          rw [collision_pass_cons_eaten rng collide i rest gm g hg hc hs,
            List.filter_cons]
          simp only [hP, if_true]
          generalize hgm2 :
            ({ gm with
                ghosts := gm.ghosts.set i g.eaten,
                ghost_combo := gm.ghost_combo + 1,
                score := gm.score + gm.ghost_score_base
                  * 2 ^ (gm.ghost_combo + 1 - 1) } : Game) = gm2
          have hghosts : gm2.ghosts = gm.ghosts.set i g.eaten := by
            rw [← hgm2]
          have hcombo2 : gm2.ghost_combo = gm.ghost_combo + 1 := by
            rw [← hgm2]
          have hscore2 : gm2.score = gm.score + gm.ghost_score_base
              * 2 ^ (gm.ghost_combo + 1 - 1) := by
            rw [← hgm2]
          have hmaze2 : gm2.maze = gm.maze := by rw [← hgm2]
          have hplayer2 : gm2.player = gm.player := by rw [← hgm2]
          have hlives2 : gm2.lives = gm.lives := by rw [← hgm2]
          have hlevel2 : gm2.level = gm.level := by rw [← hgm2]
          have hover2 : gm2.game_over = gm.game_over := by rw [← hgm2]
          have hbase2 : gm2.ghost_score_base = gm.ghost_score_base := by
            rw [← hgm2]
          have hget : ∀ j ∈ rest, gm2.ghosts.get? j = gm.ghosts.get? j := by
            intro j hj
            rw [hghosts]
            exact listGet?_set_ne gm.ghosts i j g.eaten
              (fun e => hnotin (e ▸ hj))
          have Hrest2 : ∀ j ∈ rest, ∀ g' : Ghost,
              gm2.ghosts.get? j = some g' → collide j = true →
              g'.state ≠ GhostState.normal := by
            intro j hj g' hg' hc'
            rw [hget j hj] at hg'
            exact Hrest j hj g' hg' hc'
          obtain ⟨h1, h2, h3, h4, h5, h6, h7, h8, h9, h10⟩ :=
            ih gm2 hnd2 Hrest2
          have hfil2 : rest.filter (fun j => collide j &&
              ((gm2.ghosts.get? j).any
                (fun g => g.state == GhostState.vulnerable)))
              = rest.filter (fun j => collide j && ((gm.ghosts.get? j).any
                (fun g => g.state == GhostState.vulnerable))) :=
            List.filter_congr (fun j hj => by rw [hget j hj])
          rw [hfil2] at h1 h2
          refine ⟨?_, ?_, ?_, ?_, ?_, ?_, ?_, ?_, ?_, ?_⟩
          · rw [h1, hcombo2]
            simp only [List.length_cons]
            omega
          · rw [h2, hscore2, hcombo2, hbase2]
            simp only [List.length_cons, Nat.add_sub_cancel]
            have hexp : gm.ghost_combo + 1
                + (rest.filter (fun j => collide j &&
                  ((gm.ghosts.get? j).any
                    (fun g => g.state == GhostState.vulnerable)))).length
                = gm.ghost_combo
                + ((rest.filter (fun j => collide j &&
                  ((gm.ghosts.get? j).any
                    (fun g => g.state == GhostState.vulnerable)))).length
                  + 1) := by omega
            rw [hexp]
            ring
          · rw [h3, hmaze2]
          · rw [h4, hplayer2]
          · rw [h5, hlives2]
          · rw [h6, hlevel2]
          · rw [h7, hover2]
          · rw [h8, hbase2]
          · rw [h9, hghosts]
            simp
          · intro j hj
            have hji : i ≠ j := fun e => hj (e ▸ List.mem_cons_self _ _)
            have hjrest : j ∉ rest :=
              fun e => hj (List.mem_cons_of_mem _ e)
            rw [h10 j hjrest, hghosts]
            exact listGet?_set_ne gm.ghosts i j g.eaten hji

theorem update_resolve_not_over (gm : Game) (rng : Nat → Nat)
    (collide : Nat → Bool) (h : gm.game_over = false) :
    gm.update_resolve rng collide
      = (if (Game.collision_pass rng collide
            (List.range (gm.eat_phase).ghosts.length)
            gm.eat_phase).maze.remaining_pellets ≤ 0
         then (Game.collision_pass rng collide
            (List.range (gm.eat_phase).ghosts.length)
            gm.eat_phase).next_level rng
         else Game.collision_pass rng collide
            (List.range (gm.eat_phase).ghosts.length) gm.eat_phase) := by
  unfold Game.update_resolve
  rw [if_neg (by rw [h]; exact Bool.false_ne_true)]

/-- C1: consuming a power pellet resets the combo counter to 0; each
vulnerable-ghost collision increments the combo and awards
`ghost_score_base * 2^(combo-1)`, so starting from combo 0 the cumulative
award over the first `j` ghosts of the pass is `base * (2^k - 1)` where
`k` counts the colliding vulnerable ghosts among them (hence the
individual awards are `base, 2*base, 4*base, …` in iteration order); with
two vulnerable ghosts hit in the same tick in order [A, B] the score rises
by `base` after A and by a further `2*base` after B, the combo ending at
2. -/
theorem claim_C1 :
    (∀ gm : Game, (gm.maze.eat gm.player.cell).2 = some Ate.power →
      (gm.eat_phase).ghost_combo = 0) ∧
    (∀ (gm : Game) (rng : Nat → Nat) (collide : Nat → Bool) (j : Nat),
      gm.ghost_combo = 0 →
      (∀ i ∈ List.range j, ∀ g : Ghost, gm.ghosts.get? i = some g →
        collide i = true → g.state ≠ GhostState.normal) →
      ∀ k : Nat, k = ((List.range j).filter (fun i => collide i &&
          ((gm.ghosts.get? i).any
            (fun g => g.state == GhostState.vulnerable)))).length →
      (Game.collision_pass rng collide (List.range j) gm).ghost_combo = k ∧
      (Game.collision_pass rng collide (List.range j) gm).score
        = gm.score + gm.ghost_score_base * ((2 : Int) ^ k - 1)) ∧
    (∀ (gm : Game) (rng : Nat → Nat) (collide : Nat → Bool)
        (gA gB : Ghost),
      gm.game_over = false →
      gm.ghost_combo = 0 →
      (gm.maze.eat gm.player.cell).2 = none →
      0 < gm.maze.dots_total →
      gm.ghosts = [gA, gB] →
      gA.state = GhostState.vulnerable →
      gB.state = GhostState.vulnerable →
      collide 0 = true → collide 1 = true →
      (Game.collision_pass rng collide (List.range 1) gm).score
        = gm.score + gm.ghost_score_base ∧
      (Game.collision_pass rng collide (List.range 1) gm).ghost_combo = 1 ∧
      (gm.update_resolve rng collide).score
        = gm.score + gm.ghost_score_base + gm.ghost_score_base * 2 ∧
      (gm.update_resolve rng collide).ghost_combo = 2) := by
  refine ⟨?_, ?_, ?_⟩
  · intro gm h
    rw [eat_phase_of_power gm h]
  · intro gm rng collide j hc0 H k hk
    obtain ⟨h1, h2, _⟩ :=
      collision_pass_spec rng collide (List.range j) gm (List.nodup_range j) H
    subst hk
    constructor
    · rw [h1, hc0]
      simp
    · rw [h2, hc0]
      simp
  · intro gm rng collide gA gB hover hc0 hnone hdots hgl hA hB hcol0 hcol1
    have hg0 : gm.ghosts.get? 0 = some gA := by rw [hgl]; rfl
    have hg1 : gm.ghosts.get? 1 = some gB := by rw [hgl]; rfl
    have hP0 : ((fun i => collide i && ((gm.ghosts.get? i).any
        (fun g => g.state == GhostState.vulnerable))) 0) = true := by
      dsimp only
      rw [hg0, hcol0]
      simp [hA]
    have hP1 : ((fun i => collide i && ((gm.ghosts.get? i).any
        (fun g => g.state == GhostState.vulnerable))) 1) = true := by
      dsimp only
      rw [hg1, hcol1]
      simp [hB]
    have H2 : ∀ i ∈ List.range 2, ∀ g : Ghost, gm.ghosts.get? i = some g →
        collide i = true → g.state ≠ GhostState.normal := by
      intro i hi g hg hc
      have hlt := List.mem_range.mp hi
      match i, hlt with
      | 0, _ =>
        rw [hg0] at hg
        injection hg with he
        rw [← he, hA]
        decide
      | 1, _ =>
        rw [hg1] at hg
        injection hg with he
        rw [← he, hB]
        decide
    have H1 : ∀ i ∈ List.range 1, ∀ g : Ghost, gm.ghosts.get? i = some g →
        collide i = true → g.state ≠ GhostState.normal := by
      intro i hi
      refine H2 i ?_
      have := List.mem_range.mp hi
      exact List.mem_range.mpr (by omega)
    have hfl1 : ((List.range 1).filter (fun i => collide i &&
        ((gm.ghosts.get? i).any
          (fun g => g.state == GhostState.vulnerable)))) = [0] := by
      rw [show List.range 1 = [0] by decide,
        @List.filter_cons_of_pos _ (fun i => collide i &&
          ((gm.ghosts.get? i).any
            (fun g => g.state == GhostState.vulnerable))) 0 [] hP0,
        List.filter_nil]
    have hfl2 : ((List.range 2).filter (fun i => collide i &&
        ((gm.ghosts.get? i).any
          (fun g => g.state == GhostState.vulnerable)))) = [0, 1] := by
      rw [show List.range 2 = [0, 1] by decide,
        @List.filter_cons_of_pos _ (fun i => collide i &&
          ((gm.ghosts.get? i).any
            (fun g => g.state == GhostState.vulnerable))) 0 [1] hP0,
        @List.filter_cons_of_pos _ (fun i => collide i &&
          ((gm.ghosts.get? i).any
            (fun g => g.state == GhostState.vulnerable))) 1 [] hP1,
        List.filter_nil]
    obtain ⟨ha1, ha2, _⟩ := collision_pass_spec rng collide (List.range 1) gm
      (List.nodup_range 1) H1
    obtain ⟨hb1, hb2, hbmaze, _, _, _, _, _, _⟩ :=
      collision_pass_spec rng collide (List.range 2) gm
        (List.nodup_range 2) H2
    have hlen : (gm.eat_phase).ghosts.length = 2 := by
      rw [eat_phase_of_none gm hnone, hgl]
      rfl
    have hres : gm.update_resolve rng collide
        = Game.collision_pass rng collide (List.range 2) gm := by
      rw [update_resolve_not_over gm rng collide hover, hlen,
        eat_phase_of_none gm hnone]
      rw [if_neg ?hrem]
      case hrem =>
        rw [Maze.remaining_pellets, hbmaze]
        omega
    refine ⟨?_, ?_, ?_, ?_⟩
    · rw [ha2, hfl1, hc0]
      norm_num
    · rw [ha1, hfl1, hc0]
      rfl
    · rw [hres, hb2, hfl2, hc0]
      norm_num
      ring
    · rw [hres, hb1, hfl2, hc0]
      rfl

/-- Witness for C1: the concrete two-vulnerable-ghost game and a game
standing on a power pellet exercise every hypothesis of `claim_C1`. -/
theorem claim_C1_witness :
    (gamePowerEat.eat_phase).ghost_combo = 0 ∧
    (Game.collision_pass rng0 collideAll (List.range 2)
      gameTwoVuln).ghost_combo = 2 ∧
    (gameTwoVuln.update_resolve rng0 collideAll).score
      = gameTwoVuln.score + gameTwoVuln.ghost_score_base
        + gameTwoVuln.ghost_score_base * 2 ∧
    (gameTwoVuln.update_resolve rng0 collideAll).ghost_combo = 2 := by
  have H : ∀ i ∈ List.range 2, ∀ g : Ghost,
      gameTwoVuln.ghosts.get? i = some g → collideAll i = true →
      g.state ≠ GhostState.normal := by
    intro i hi g hg hc
    have hlt := List.mem_range.mp hi
    match i, hlt with
    | 0, _ =>
      rw [show gameTwoVuln.ghosts.get? 0 = some ghostA from rfl] at hg
      injection hg with he
      rw [← he]
      decide
    | 1, _ =>
      rw [show gameTwoVuln.ghosts.get? 1 = some ghostB from rfl] at hg
      injection hg with he
      rw [← he]
      decide
  have h3 := claim_C1.2.2 gameTwoVuln rng0 collideAll ghostA ghostB rfl rfl
    (by decide) (by decide) rfl rfl rfl rfl rfl
  exact ⟨claim_C1.1 gamePowerEat (by decide),
    (claim_C1.2.1 gameTwoVuln rng0 collideAll 2 rfl H 2 (by decide)).1,
    h3.2.2.1, h3.2.2.2⟩

theorem reset_after_life_loss_props (gmx : Game) (rng : Nat → Nat)
    (res : Game)
    (h : res = Game.reset_positions
      { gmx with lives := gmx.lives - 1,
                 game_over := if gmx.lives - 1 ≤ 0 then true
                              else gmx.game_over } rng) :
    res.lives = gmx.lives - 1 ∧
    res.player.cell = res.player.start_cell ∧
    res.player.direction = STOP ∧
    (∀ gg ∈ res.ghosts, gg.cell = gg.start_cell ∧
      gg.state = GhostState.normal ∧
      gg.direction ∈ [UP, DOWN, LEFT, RIGHT]) := by
  subst h
  have hp := reset_positions_props
    { gmx with lives := gmx.lives - 1,
               game_over := if gmx.lives - 1 ≤ 0 then true
                            else gmx.game_over } rng
  exact ⟨hp.1, hp.2.2.2.2.2.2.1, hp.2.2.2.2.2.2.2.1, hp.2.2.2.2.2.2.2.2⟩

/-- C2 (amended): on a tick whose first colliding normal-state ghost is at
index `j` (any earlier colliding ghosts being vulnerable or eyes), lives
drop by exactly 1, the player returns to its start cell with direction
cleared, and every ghost returns to its start cell in `normal` state —
but with its direction re-randomised to one of the four cardinal
directions, not cleared — and the collision pass stops at that ghost: the
tick's outcome is unchanged under any modification of the proximity
outcomes of the ghosts after index `j`. -/
theorem claim_C2 :
    ∀ (gm : Game) (rng : Nat → Nat) (collide : Nat → Bool) (j : Nat)
      (g : Ghost),
      gm.game_over = false →
      (gm.eat_phase).ghosts.get? j = some g →
      collide j = true →
      g.state = GhostState.normal →
      (∀ i, i < j → ∀ g2 : Ghost, (gm.eat_phase).ghosts.get? i = some g2 →
        collide i = true → g2.state ≠ GhostState.normal) →
      (gm.update_resolve rng collide).lives = gm.lives - 1 ∧
      (gm.update_resolve rng collide).player.cell
        = (gm.update_resolve rng collide).player.start_cell ∧
      (gm.update_resolve rng collide).player.direction = STOP ∧
      (∀ gg ∈ (gm.update_resolve rng collide).ghosts,
        gg.cell = gg.start_cell ∧ gg.state = GhostState.normal ∧
        gg.direction ∈ [UP, DOWN, LEFT, RIGHT]) ∧
      (∀ collide2 : Nat → Bool, (∀ i, i ≤ j → collide2 i = collide i) →
        gm.update_resolve rng collide2 = gm.update_resolve rng collide) := by
  intro gm rng collide j g hover hgj hcj hsj Hpre
  have hj : j < (gm.eat_phase).ghosts.length := listGet?_lt _ j g hgj
  obtain ⟨t, ht⟩ := range_split j _ hj
  have Hpre2 : ∀ i ∈ List.range j, ∀ g2 : Ghost,
      (gm.eat_phase).ghosts.get? i = some g2 → collide i = true →
      g2.state ≠ GhostState.normal :=
    fun i hi => Hpre i (List.mem_range.mp hi)
  obtain ⟨_, _, hmaze, hplayer, hlives, hlevel, hover2, hbase, hlen, hget⟩ :=
    collision_pass_spec rng collide (List.range j) gm.eat_phase
      (List.nodup_range j) Hpre2
  have hgj2 : (Game.collision_pass rng collide (List.range j)
      gm.eat_phase).ghosts.get? j = some g := by
    rw [hget j (fun e => lt_irrefl j (List.mem_range.mp e))]
    exact hgj
  have hsplit : Game.collision_pass rng collide
      (List.range (gm.eat_phase).ghosts.length) gm.eat_phase
      = Game.collision_pass rng collide (j :: t)
          (Game.collision_pass rng collide (List.range j) gm.eat_phase) := by
    rw [ht]
    exact collision_pass_append rng collide (List.range j) (j :: t)
      gm.eat_phase Hpre2
  have hall := hsplit.trans
    (collision_pass_cons_break rng collide j t _ g hgj2 hcj hsj)
  have hprops := reset_after_life_loss_props
    (Game.collision_pass rng collide (List.range j) gm.eat_phase) rng
    (Game.collision_pass rng collide
      (List.range (gm.eat_phase).ghosts.length) gm.eat_phase) hall
  have hind : ∀ collide2 : Nat → Bool, (∀ i, i ≤ j → collide2 i = collide i) →
      gm.update_resolve rng collide2 = gm.update_resolve rng collide := by
    intro collide2 hagree
    have hcongr : Game.collision_pass rng collide2 (List.range j) gm.eat_phase
        = Game.collision_pass rng collide (List.range j) gm.eat_phase :=
      collision_pass_congr rng collide2 collide (List.range j) gm.eat_phase
        (fun i hi => hagree i (le_of_lt (List.mem_range.mp hi)))
    have Hpre2b : ∀ i ∈ List.range j, ∀ g2 : Ghost,
        (gm.eat_phase).ghosts.get? i = some g2 → collide2 i = true →
        g2.state ≠ GhostState.normal := by
      intro i hi g2 hg2 hc2
      refine Hpre2 i hi g2 hg2 ?_
      rw [← hagree i (le_of_lt (List.mem_range.mp hi))]
      exact hc2
    have hsplit2 : Game.collision_pass rng collide2
        (List.range (gm.eat_phase).ghosts.length) gm.eat_phase
        = Game.collision_pass rng collide2 (j :: t)
            (Game.collision_pass rng collide2 (List.range j) gm.eat_phase) := by
      rw [ht]
      exact collision_pass_append rng collide2 (List.range j) (j :: t)
        gm.eat_phase Hpre2b
    have hcj2 : collide2 j = true := by
      rw [hagree j (le_refl j)]
      exact hcj
    have hgj2b : (Game.collision_pass rng collide2 (List.range j)
        gm.eat_phase).ghosts.get? j = some g := by
      rw [hcongr]
      exact hgj2
    have hall2 := hsplit2.trans
      (collision_pass_cons_break rng collide2 j t _ g hgj2b hcj2 hsj)
    rw [hcongr] at hall2
    rw [update_resolve_not_over gm rng collide2 hover,
      update_resolve_not_over gm rng collide hover, hall2, hall]
  have hres := update_resolve_not_over gm rng collide hover
  have hmain : (gm.update_resolve rng collide).lives = gm.lives - 1 ∧
      (gm.update_resolve rng collide).player.cell
        = (gm.update_resolve rng collide).player.start_cell ∧
      (gm.update_resolve rng collide).player.direction = STOP ∧
      (∀ gg ∈ (gm.update_resolve rng collide).ghosts,
        gg.cell = gg.start_cell ∧ gg.state = GhostState.normal ∧
        gg.direction ∈ [UP, DOWN, LEFT, RIGHT]) := by
    by_cases hrem : (Game.collision_pass rng collide
        (List.range (gm.eat_phase).ghosts.length)
        gm.eat_phase).maze.remaining_pellets ≤ 0
    · rw [if_pos hrem] at hres
      have hnl := next_level_props (Game.collision_pass rng collide
        (List.range (gm.eat_phase).ghosts.length) gm.eat_phase) rng
      refine ⟨?_, ?_, ?_, ?_⟩
      · rw [hres, hnl.1, hprops.1, hlives, (eat_phase_frame gm).1]
      · rw [hres]
        exact hnl.2.2.2.2.2.1
      · rw [hres]
        exact hnl.2.2.2.2.2.2.1
      · rw [hres]
        exact hnl.2.2.2.2.2.2.2
    · rw [if_neg hrem] at hres
      refine ⟨?_, ?_, ?_, ?_⟩
      · rw [hres, hprops.1, hlives, (eat_phase_frame gm).1]
      · rw [hres]
        exact hprops.2.1
      · rw [hres]
        exact hprops.2.2.1
      · rw [hres]
        exact hprops.2.2.2
  exact ⟨hmain.1, hmain.2.1, hmain.2.2.1, hmain.2.2.2, hind⟩

/-- C2 counterexample: in `gameNormalHit` the player collides with the
single normal-state ghost, lives drop by 1 and everything resets — but
the reset ghost's direction is the fresh random draw `UP`, not the
cleared `STOP` direction the claim asserts for "direction cleared". -/
theorem claim_C2_counterexample :
    gameNormalHit.ghosts.get? 0 = some ghostChaser ∧
    ghostChaser.state = GhostState.normal ∧
    collideAll 0 = true ∧
    (gameNormalHit.update_resolve rng0 collideAll).lives
      = gameNormalHit.lives - 1 ∧
    ((gameNormalHit.update_resolve rng0 collideAll).ghosts.map
      (fun g => g.direction)) = [UP] ∧
    UP ≠ STOP := by
  refine ⟨rfl, rfl, rfl, by decide, by decide, by decide⟩

/-- Witness for C2: the amended claim applied to `gameNormalHit` at ghost
index 0. -/
theorem claim_C2_witness :
    (gameNormalHit.update_resolve rng0 collideAll).lives
      = gameNormalHit.lives - 1 ∧
    (gameNormalHit.update_resolve rng0 collideAll).player.direction
      = STOP ∧
    (∀ gg ∈ (gameNormalHit.update_resolve rng0 collideAll).ghosts,
      gg.cell = gg.start_cell ∧ gg.state = GhostState.normal ∧
      gg.direction ∈ [UP, DOWN, LEFT, RIGHT]) := by
  have h := claim_C2 gameNormalHit rng0 collideAll 0 ghostChaser rfl
    rfl rfl rfl (fun i hi => absurd hi (by omega))
  exact ⟨h.1, h.2.2.1, h.2.2.2.1⟩

/-- C3 (amended): when the player consumes the last remaining collectible
(and no ghost collides that tick), `remaining()` is 0 and the score has
risen by the minor value immediately after the consumption step — but the
level transition (maze rebuilt as a fresh `Maze`, level incremented, lives
unchanged, positions reset) fires at the end of the same tick, not on the
next tick, so the tick ends with the fresh maze's full collectible
count. -/
theorem claim_C3 :
    ∀ (gm : Game) (rng : Nat → Nat) (collide : Nat → Bool),
      gm.game_over = false →
      (gm.maze.eat gm.player.cell).2 = some Ate.dot →
      ((gm.maze.eat gm.player.cell).1).remaining_pellets = 0 →
      (∀ i, collide i = false) →
      (gm.eat_phase).maze.remaining_pellets = 0 ∧
      (gm.eat_phase).score = gm.score + 10 ∧
      (gm.update_resolve rng collide).level = gm.level + 1 ∧
      (gm.update_resolve rng collide).maze = Maze.init ∧
      (gm.update_resolve rng collide).lives = gm.lives ∧
      (gm.update_resolve rng collide).score = gm.score + 10 ∧
      (gm.update_resolve rng collide).player.cell
        = (gm.update_resolve rng collide).player.start_cell ∧
      (∀ gg ∈ (gm.update_resolve rng collide).ghosts,
        gg.cell = gg.start_cell ∧ gg.state = GhostState.normal) := by
  intro gm rng collide hover hdot hrem hnc
  have hep := eat_phase_of_dot gm hdot
  have h1 : (gm.eat_phase).maze.remaining_pellets = 0 := by
    rw [hep]
    exact hrem
  have h2 : (gm.eat_phase).score = gm.score + 10 := by rw [hep]
  have hpass : Game.collision_pass rng collide
      (List.range (gm.eat_phase).ghosts.length) gm.eat_phase
      = gm.eat_phase :=
    collision_pass_nocollide rng collide _ _ (fun i _ => hnc i)
  have hres := update_resolve_not_over gm rng collide hover
  rw [hpass, if_pos (le_of_eq h1)] at hres
  have hnl := next_level_props gm.eat_phase rng
  have hfr := eat_phase_frame gm
  refine ⟨h1, h2, ?_, ?_, ?_, ?_, ?_, ?_⟩
  · rw [hres, hnl.2.2.1, hfr.2.1]
  · rw [hres]
    exact hnl.2.2.2.2.1
  · rw [hres, hnl.1, hfr.1]
  · rw [hres, hnl.2.1, h2]
  · rw [hres]
    exact hnl.2.2.2.2.2.1
  · rw [hres]
    intro gg hgg
    obtain ⟨a, b, _⟩ := hnl.2.2.2.2.2.2.2 gg hgg
    exact ⟨a, b⟩

/-- C3 counterexample: in `gameLastDot` the player stands on the only
remaining dot; on that very tick the level counter already increments and
the tick ends with the rebuilt maze's full pellet count (262), not with
`remaining() == 0` — so the transition is not deferred to the next
tick. -/
theorem claim_C3_counterexample :
    (gameLastDot.maze.eat gameLastDot.player.cell).2 = some Ate.dot ∧
    ((gameLastDot.maze.eat gameLastDot.player.cell).1).remaining_pellets
      = 0 ∧
    (gameLastDot.update_resolve rng0 collideNone).level
      = gameLastDot.level + 1 ∧
    (gameLastDot.update_resolve rng0 collideNone).maze.remaining_pellets
      = 262 ∧
    (262 : Int) ≠ 0 := by
  refine ⟨by decide, by decide, by decide, by decide, by decide⟩

/-- Witness for C3: the amended claim applied to `gameLastDot`. -/
theorem claim_C3_witness :
    (gameLastDot.eat_phase).maze.remaining_pellets = 0 ∧
    (gameLastDot.update_resolve rng0 collideNone).level
      = gameLastDot.level + 1 ∧
    (gameLastDot.update_resolve rng0 collideNone).lives
      = gameLastDot.lives ∧
    (gameLastDot.update_resolve rng0 collideNone).score
      = gameLastDot.score + 10 := by
  have h := claim_C3 gameLastDot rng0 collideNone rfl (by decide) (by decide)
    (fun i => rfl)
  exact ⟨h.1, h.2.2.1, h.2.2.2.2.1, h.2.2.2.2.2.1⟩

/-- C10: within a session the combo counter is reset only by
power-pellet consumption: `reset_positions` (life loss), `next_level`
(level transition) and the vulnerability-countdown update all leave
`ghost_combo` unchanged, and a full resolution tick that consumes no
power pellet adds exactly the number of vulnerable ghosts eaten to the
running combo and continues the exponential chain from its current value
(the awards sum to `base * (2^(combo+k) - 2^combo)`). -/
theorem claim_C10 :
    (∀ (gm : Game) (rng : Nat → Nat),
      (gm.reset_positions rng).ghost_combo = gm.ghost_combo) ∧
    (∀ (gm : Game) (rng : Nat → Nat),
      (gm.next_level rng).ghost_combo = gm.ghost_combo) ∧
    (∀ (gm : Game) (dt : Int),
      ({ gm with ghosts := gm.ghosts.map (fun g => g.update_timer dt)
       } : Game).ghost_combo = gm.ghost_combo) ∧
    (∀ (gm : Game) (rng : Nat → Nat) (collide : Nat → Bool),
      gm.game_over = false →
      (gm.maze.eat gm.player.cell).2 ≠ some Ate.power →
      (∀ i ∈ List.range gm.ghosts.length, ∀ g : Ghost,
        gm.ghosts.get? i = some g → collide i = true →
        g.state ≠ GhostState.normal) →
      ∀ k : Nat, k = ((List.range gm.ghosts.length).filter
          (fun j => collide j && ((gm.ghosts.get? j).any
            (fun g => g.state == GhostState.vulnerable)))).length →
      (gm.update_resolve rng collide).ghost_combo = gm.ghost_combo + k ∧
      (gm.update_resolve rng collide).score
        = (gm.eat_phase).score + gm.ghost_score_base *
            ((2 : Int) ^ (gm.ghost_combo + k)
              - (2 : Int) ^ gm.ghost_combo)) := by
  refine ⟨?_, ?_, ?_, ?_⟩
  · intro gm rng
    exact (reset_positions_props gm rng).2.2.2.1
  · intro gm rng
    exact (next_level_props gm rng).2.2.2.1
  · intro gm dt
    rfl
  · intro gm rng collide hover hnp H k hk
    obtain ⟨hcombo1, hghosts1, hbase1, _⟩ := eat_phase_not_power gm hnp
    have hlen2 : (gm.eat_phase).ghosts.length = gm.ghosts.length := by
      rw [hghosts1]
    have H2 : ∀ i ∈ List.range (gm.eat_phase).ghosts.length, ∀ g : Ghost,
        (gm.eat_phase).ghosts.get? i = some g → collide i = true →
        g.state ≠ GhostState.normal := by
      intro i hi g hg hc
      rw [hghosts1] at hg
      rw [hlen2] at hi
      exact H i hi g hg hc
    obtain ⟨s1, s2, smaze, _, _, _, _, _, _, _⟩ :=
      collision_pass_spec rng collide
        (List.range (gm.eat_phase).ghosts.length) gm.eat_phase
        (List.nodup_range _) H2
    rw [hghosts1, hcombo1] at s1
    rw [hghosts1, hcombo1, hbase1] at s2
    have hres := update_resolve_not_over gm rng collide hover
    rw [hlen2] at hres
    have hscore_goal : (Game.collision_pass rng collide
        (List.range gm.ghosts.length) gm.eat_phase).score
        = (gm.eat_phase).score + gm.ghost_score_base *
            ((2 : Int) ^ (gm.ghost_combo + k)
              - (2 : Int) ^ gm.ghost_combo) := by
      rw [s2, hk]
    have hcombo_goal : (Game.collision_pass rng collide
        (List.range gm.ghosts.length) gm.eat_phase).ghost_combo
        = gm.ghost_combo + k := by
      rw [s1, hk]
    by_cases hrem : (Game.collision_pass rng collide
        (List.range gm.ghosts.length)
        gm.eat_phase).maze.remaining_pellets ≤ 0
    · rw [if_pos hrem] at hres
      have hnl := next_level_props (Game.collision_pass rng collide
        (List.range gm.ghosts.length) gm.eat_phase) rng
      rw [hres, hnl.2.2.2.1, hnl.2.1]
      exact ⟨hcombo_goal, hscore_goal⟩
    · rw [if_neg hrem] at hres
      rw [hres]
      exact ⟨hcombo_goal, hscore_goal⟩

/-- Witness for C10: the chain-continuation clause applied to the
two-vulnerable-ghost game with no power pellet under the player. -/
theorem claim_C10_witness :
    (gameTwoVuln.update_resolve rng0 collideAll).ghost_combo
      = gameTwoVuln.ghost_combo + 2 ∧
    (gameTwoVuln.update_resolve rng0 collideAll).score
      = (gameTwoVuln.eat_phase).score + gameTwoVuln.ghost_score_base *
          ((2 : Int) ^ (gameTwoVuln.ghost_combo + 2)
            - (2 : Int) ^ gameTwoVuln.ghost_combo) := by
  have H : ∀ i ∈ List.range gameTwoVuln.ghosts.length, ∀ g : Ghost,
      gameTwoVuln.ghosts.get? i = some g → collideAll i = true →
      g.state ≠ GhostState.normal := by
    intro i hi g hg hc
    have hlt := List.mem_range.mp hi
    match i, hlt with
    | 0, _ =>
      rw [show gameTwoVuln.ghosts.get? 0 = some ghostA from rfl] at hg
      injection hg with he
      rw [← he]
      decide
    | 1, _ =>
      rw [show gameTwoVuln.ghosts.get? 1 = some ghostB from rfl] at hg
      injection hg with he
      rw [← he]
      decide
  exact claim_C10.2.2.2 gameTwoVuln rng0 collideAll rfl (by decide) H 2
    (by decide)
